import Mathlib

/-!
# slack-cli: input validation and search-query construction

A shallow embedding of `internal/validate/validate.go`,
`internal/cmd/search/query.go`, `internal/cmd/messages/send.go`,
`internal/cmd/config/delete_token.go` and `internal/cmd/config/test.go`,
together with the parts of the Go standard library (`strings`, `regexp`,
`fmt.Errorf`) those files call.  The client package is known only through its
tests; its pagination is modelled from the specification.

Modelling conventions:
* a Go `string` is a Lean `String`, read as its sequence of Unicode code
  points (`String.data`); every delimiter the code inspects (`:`, `#`, `@`)
  is ASCII, so byte-wise and rune-wise trimming coincide;
* a Go `error` result is an `Option GoError`, `none` standing for `nil`;
* a `*QueryOptions` argument is an `Option QueryOptions`, `none` standing
  for the nil pointer;
* a command handler is a function from its arguments and a `World` (the code
  and environment outside the files at hand) to an `Outcome`: the effects it
  has, in order, and the `error` it returns.
-/

namespace SlackCLI

/-! ## Go standard library: `strings` -/

namespace strings

/-- Go `strings.HasPrefix(s, p)`: `len(s) >= len(p) && s[:len(p)] == p`. -/
def HasPrefix (s p : String) : Bool :=
  decide (p.data.length ≤ s.data.length) && (s.data.take p.data.length == p.data)

/-- Go `strings.HasSuffix(s, x)`:
`len(s) >= len(x) && s[len(s)-len(x):] == x`. -/
def HasSuffix (s x : String) : Bool :=
  decide (x.data.length ≤ s.data.length) &&
    (s.data.drop (s.data.length - x.data.length) == x.data)

/-- Go `strings.TrimPrefix(s, p)`: `s[len(p):]` when `s` has the prefix `p`,
otherwise `s` unchanged.  At most one occurrence is removed. -/
def TrimPrefix (s p : String) : String :=
  if HasPrefix s p then ⟨s.data.drop p.data.length⟩ else s

/-- Go `trimLeftByte`: `for len(s) > 0 && s[0] == c { s = s[1:] }`. -/
def trimLeftByte (s : List Char) (c : Char) : List Char :=
  s.dropWhile (fun x => x == c)

/-- Go `trimRightByte`: `for len(s) > 0 && s[len(s)-1] == c { s = s[:len(s)-1] }`,
the same loop run from the far end. -/
def trimRightByte (s : List Char) (c : Char) : List Char :=
  (s.reverse.dropWhile (fun x => x == c)).reverse

/-- Go `trimLeftUnicode` / `trimLeftASCII`: drop leading runes that occur in
the cutset. -/
def trimLeftSet (s cutset : List Char) : List Char :=
  s.dropWhile (fun x => cutset.contains x)

/-- Go `trimRightUnicode` / `trimRightASCII`: drop trailing runes that occur
in the cutset. -/
def trimRightSet (s cutset : List Char) : List Char :=
  (s.reverse.dropWhile (fun x => cutset.contains x)).reverse

/-- Go `strings.Trim(s, cutset)`:
```go
if s == "" || cutset == "" { return s }
if len(cutset) == 1 && cutset[0] < utf8.RuneSelf {
    return trimLeftByte(trimRightByte(s, cutset[0]), cutset[0])
}
... trimLeft(trimRight(s, cutset), cutset)
```
-/
def Trim (s cutset : String) : String :=
  if s.data.isEmpty || cutset.data.isEmpty then s
  else
    match cutset.data with
    | [c] =>
      if c.toNat < 128 then ⟨trimLeftByte (trimRightByte s.data c) c⟩
      else ⟨trimLeftSet (trimRightSet s.data [c]) [c]⟩
    | cs => ⟨trimLeftSet (trimRightSet s.data cs) cs⟩

/-- Go `strings.Join(elems, sep)`:
```go
switch len(elems) {
case 0: return ""
case 1: return elems[0]
}
... elems[0], then for each later element: sep, element
```
-/
def Join (elems : List String) (sep : String) : String :=
  match elems with
  | [] => ""
  | [e] => e
  | e :: rest => rest.foldl (fun acc x => acc ++ sep ++ x) e

/-- Whether `substr` occurs at some position of the text (the test
`Index(s, substr) >= 0`). -/
def indexFrom (substr : List Char) : List Char → Bool
  | [] => substr.isEmpty
  | c :: rest => substr.isPrefixOf (c :: rest) || indexFrom substr rest

/-- Go `strings.Contains(s, substr)`. -/
def Contains (s substr : String) : Bool :=
  indexFrom substr.data s.data

end strings

/-! ## Go standard library: `fmt.Errorf` -/

namespace fmt

/-- An operand of a formatting verb. -/
inductive Arg where
  | str (s : String)
  | int (n : Int)
deriving DecidableEq, Repr

/-- A non-nil Go `error` built by `fmt.Errorf`: the format string and its
operands, kept unrendered. -/
structure GoError where
  format : String
  args : List Arg
deriving DecidableEq, Repr

/-- Go `fmt.Errorf(format, args...)`. -/
def Errorf (format : String) (args : List Arg) : GoError := ⟨format, args⟩

end fmt

/-! ## Go standard library: `regexp`

The fragment of RE2 syntax the repository's patterns use.  Matching is by
derivatives; `^` and `$` are zero-width assertions on the text boundary (no
`m` flag is set anywhere, so `$` is end of text, not end of line), and
`MatchString` is an unanchored search. -/

namespace regexp

/-- Regular-expression syntax tree (after `regexp/syntax`). -/
inductive Regexp where
  | noMatch : Regexp
  | emptyMatch : Regexp
  | beginText : Regexp
  | endText : Regexp
  | anyChar : Regexp
  | charClass (ranges : List (Char × Char)) : Regexp
  | concat (a b : Regexp) : Regexp
  | alternate (a b : Regexp) : Regexp
  | star (a : Regexp) : Regexp
deriving Repr

namespace Regexp

/-- The operator `x+`. -/
def plus (a : Regexp) : Regexp := concat a (star a)

/-- The operator `x{n}`. -/
def rep : Nat → Regexp → Regexp
  | 0, _ => emptyMatch
  | n + 1, a => concat a (rep n a)

/-- A literal rune. -/
def lit (c : Char) : Regexp := charClass [(c, c)]

end Regexp

/-- Membership of a rune in a class given as inclusive ranges. -/
def inClass (ranges : List (Char × Char)) (c : Char) : Bool :=
  ranges.any (fun r => decide (r.1.toNat ≤ c.toNat) && decide (c.toNat ≤ r.2.toNat))

/-- Whether the expression matches the empty string at a position that is
(`atStart`) at the beginning and (`atEnd`) at the end of the text. -/
def nullable (atStart atEnd : Bool) : Regexp → Bool
  | .noMatch => false
  | .emptyMatch => true
  | .beginText => atStart
  | .endText => atEnd
  | .anyChar => false
  | .charClass _ => false
  | .concat a b => nullable atStart atEnd a && nullable atStart atEnd b
  | .alternate a b => nullable atStart atEnd a || nullable atStart atEnd b
  | .star _ => true

/-- Derivative with respect to the rune `c` read at a position that is
(`atStart`) the beginning of the text. -/
def deriv (atStart : Bool) (c : Char) : Regexp → Regexp
  | .noMatch => .noMatch
  | .emptyMatch => .noMatch
  | .beginText => .noMatch
  | .endText => .noMatch
  | .anyChar => .emptyMatch
  | .charClass rs => if inClass rs c then .emptyMatch else .noMatch
  | .concat a b =>
    .alternate (.concat (deriv atStart c a) b)
      (if nullable atStart false a then deriv atStart c b else .noMatch)
  | .alternate a b => .alternate (deriv atStart c a) (deriv atStart c b)
  | .star a => .concat (deriv atStart c a) (.star a)

/-- Whether the expression matches the whole of the remaining text. -/
def matchFrom : Regexp → Bool → List Char → Bool
  | r, atStart, [] => nullable atStart true r
  | r, atStart, c :: cs => matchFrom (deriv atStart c r) false cs

/-- Go `(*Regexp).MatchString(s)`: whether `s` contains any match of the
expression. -/
def MatchString (re : Regexp) (s : String) : Bool :=
  matchFrom (.concat (.star .anyChar) (.concat re (.star .anyChar))) true s.data

/-- Reference semantics of the syntax tree: `Matches r pre mid post` says that
`r` matches the stretch `mid` of the text `pre ++ mid ++ post`. -/
inductive Matches : Regexp → List Char → List Char → List Char → Prop where
  | emptyMatch (pre post : List Char) : Matches .emptyMatch pre [] post
  | beginText (post : List Char) : Matches .beginText [] [] post
  | endText (pre : List Char) : Matches .endText pre [] []
  | anyChar (pre post : List Char) (c : Char) : Matches .anyChar pre [c] post
  | charClass (rs : List (Char × Char)) (pre post : List Char) (c : Char) :
      inClass rs c = true → Matches (.charClass rs) pre [c] post
  | concat (a b : Regexp) (pre u v post : List Char) :
      Matches a pre u (v ++ post) → Matches b (pre ++ u) v post →
      Matches (.concat a b) pre (u ++ v) post
  | altLeft (a b : Regexp) (pre mid post : List Char) :
      Matches a pre mid post → Matches (.alternate a b) pre mid post
  | altRight (a b : Regexp) (pre mid post : List Char) :
      Matches b pre mid post → Matches (.alternate a b) pre mid post
  | starNil (a : Regexp) (pre post : List Char) : Matches (.star a) pre [] post
  | starCons (a : Regexp) (pre u v post : List Char) :
      u ≠ [] → Matches a pre u (v ++ post) → Matches (.star a) (pre ++ u) v post →
      Matches (.star a) pre (u ++ v) post

end regexp

/-! ## `internal/validate` -/

namespace validate

/-- Go: ``channelIDRegex = regexp.MustCompile(`^[CG][A-Z0-9]+$`)``. -/
def channelIDRegex : regexp.Regexp :=
  .concat .beginText
    (.concat (.charClass [('C', 'C'), ('G', 'G')])
      (.concat (regexp.Regexp.plus (.charClass [('A', 'Z'), ('0', '9')])) .endText))

/-- Go:
```go
func ChannelID(id string) error {
	if !channelIDRegex.MatchString(id) {
		return fmt.Errorf("invalid channel ID %q: must start with C or G (e.g., C01234ABCDE)", id)
	}
	return nil
}
```
-/
def ChannelID (id : String) : Option fmt.GoError :=
  if !regexp.MatchString channelIDRegex id then
    some (fmt.Errorf "invalid channel ID %q: must start with C or G (e.g., C01234ABCDE)" [.str id])
  else none

/-- Go: ``userIDRegex = regexp.MustCompile(`^[UW][A-Z0-9]+$`)``. -/
def userIDRegex : regexp.Regexp :=
  .concat .beginText
    (.concat (.charClass [('U', 'U'), ('W', 'W')])
      (.concat (regexp.Regexp.plus (.charClass [('A', 'Z'), ('0', '9')])) .endText))

/-- Go:
```go
func UserID(id string) error {
	if !userIDRegex.MatchString(id) {
		return fmt.Errorf("invalid user ID %q: must start with U or W (e.g., U01234ABCDE)", id)
	}
	return nil
}
```
-/
def UserID (id : String) : Option fmt.GoError :=
  if !regexp.MatchString userIDRegex id then
    some (fmt.Errorf "invalid user ID %q: must start with U or W (e.g., U01234ABCDE)" [.str id])
  else none

/-- Go: ``timestampRegex = regexp.MustCompile(`^\d+\.\d+$`)``; in RE2 `\d` is
the ASCII class `[0-9]` and `\.` is the literal dot. -/
def timestampRegex : regexp.Regexp :=
  .concat .beginText
    (.concat (regexp.Regexp.plus (.charClass [('0', '9')]))
      (.concat (regexp.Regexp.lit '.')
        (.concat (regexp.Regexp.plus (.charClass [('0', '9')])) .endText)))

/-- Go:
```go
func Timestamp(ts string) error {
	if !timestampRegex.MatchString(ts) {
		return fmt.Errorf("invalid timestamp %q: must be format 1234567890.123456", ts)
	}
	return nil
}
```
-/
def Timestamp (ts : String) : Option fmt.GoError :=
  if !regexp.MatchString timestampRegex ts then
    some (fmt.Errorf "invalid timestamp %q: must be format 1234567890.123456" [.str ts])
  else none

/-- Go:
```go
func Limit(limit int) error {
	if limit < 1 {
		return fmt.Errorf("invalid limit %d: must be at least 1", limit)
	}
	if limit > 1000 {
		return fmt.Errorf("invalid limit %d: must be at most 1000", limit)
	}
	return nil
}
```
Only comparisons are made, so a Go `int` is read as the integer it denotes. -/
def Limit (limit : Int) : Option fmt.GoError :=
  if limit < 1 then
    some (fmt.Errorf "invalid limit %d: must be at least 1" [.int limit])
  else if limit > 1000 then
    some (fmt.Errorf "invalid limit %d: must be at most 1000" [.int limit])
  else none

/-- Go: `func Emoji(emoji string) string { return strings.Trim(emoji, ":") }`. -/
def Emoji (emoji : String) : String :=
  strings.Trim emoji ":"

end validate

/-! ## `internal/cmd/search` -/

namespace search

/-- Go `type QueryOptions struct`; the defaults are Go's zero values. -/
structure QueryOptions where
  Scope : String := ""
  InChannel : String := ""
  FromUser : String := ""
  After : String := ""
  Before : String := ""
  HasLink : Bool := false
  HasReaction : Bool := false
  HasPin : Bool := false
  FileType : String := ""
deriving DecidableEq, Repr

/-- Go: `var ValidScopes = []string{"all", "public", "private", "dm", "mpim"}`. -/
def ValidScopes : List String := ["all", "public", "private", "dm", "mpim"]

/-- The loop `for _, s := range ValidScopes { if scope == s { return nil } }`:
`true` when the early return is taken. -/
def scopeListed (scope : String) : List String → Bool
  | [] => false
  | s :: rest => if scope = s then true else scopeListed scope rest

/-- Go:
```go
func ValidateScope(scope string) error {
	if scope == "" { return nil }
	for _, s := range ValidScopes {
		if scope == s { return nil }
	}
	return fmt.Errorf("invalid scope: %q (must be one of: %s)", scope, strings.Join(ValidScopes, ", "))
}
```
-/
def ValidateScope (scope : String) : Option fmt.GoError :=
  if scope = "" then none
  else if scopeListed scope ValidScopes then none
  else some (fmt.Errorf "invalid scope: %q (must be one of: %s)"
    [.str scope, .str (strings.Join ValidScopes ", ")])

/-- Go: ``datePattern = regexp.MustCompile(`^\d{4}-\d{2}-\d{2}$`)``; in RE2
`\d` is the ASCII class `[0-9]`. -/
def datePattern : regexp.Regexp :=
  .concat .beginText
    (.concat (regexp.Regexp.rep 4 (.charClass [('0', '9')]))
      (.concat (regexp.Regexp.lit '-')
        (.concat (regexp.Regexp.rep 2 (.charClass [('0', '9')]))
          (.concat (regexp.Regexp.lit '-')
            (.concat (regexp.Regexp.rep 2 (.charClass [('0', '9')])) .endText)))))

/-- Go:
```go
func ValidateDate(date string) error {
	if date == "" { return nil }
	if !datePattern.MatchString(date) {
		return fmt.Errorf("invalid date format: %q (must be YYYY-MM-DD)", date)
	}
	return nil
}
```
-/
def ValidateDate (date : String) : Option fmt.GoError :=
  if date = "" then none
  else if !regexp.MatchString datePattern date then
    some (fmt.Errorf "invalid date format: %q (must be YYYY-MM-DD)" [.str date])
  else none

/-- The value of the local variable `parts` of `BuildQuery` when it reaches
`strings.Join`: threaded through the conditional `append`s in source order. -/
def queryParts (baseQuery : String) (opts : QueryOptions) : List String :=
  let parts : List String := []
  -- Add scope modifier
  let parts :=
    if opts.Scope ≠ "" ∧ opts.Scope ≠ "all" then parts ++ ["is:" ++ opts.Scope] else parts
  -- Add channel filter
  let parts :=
    if opts.InChannel ≠ "" then
      let channel := strings.TrimPrefix opts.InChannel "#"
      parts ++ ["in:#" ++ channel]
    else parts
  -- Add user filter
  let parts :=
    if opts.FromUser ≠ "" then
      let user := strings.TrimPrefix opts.FromUser "@"
      parts ++ ["from:@" ++ user]
    else parts
  -- Add date filters
  let parts := if opts.After ≠ "" then parts ++ ["after:" ++ opts.After] else parts
  let parts := if opts.Before ≠ "" then parts ++ ["before:" ++ opts.Before] else parts
  -- Add has filters
  let parts := if opts.HasLink then parts ++ ["has:link"] else parts
  let parts := if opts.HasReaction then parts ++ ["has:reaction"] else parts
  let parts := if opts.HasPin then parts ++ ["has:pin"] else parts
  -- Add file type filter
  let parts := if opts.FileType ≠ "" then parts ++ ["type:" ++ opts.FileType] else parts
  -- Add the base query at the end
  parts ++ [baseQuery]

/-- Go:
```go
func BuildQuery(baseQuery string, opts *QueryOptions) string {
	if opts == nil { return baseQuery }
	var parts []string
	... conditional appends, see `queryParts` ...
	parts = append(parts, baseQuery)
	return strings.Join(parts, " ")
}
```
-/
def BuildQuery (baseQuery : String) (opts : Option QueryOptions) : String :=
  match opts with
  | none => baseQuery
  | some opts => strings.Join (queryParts baseQuery opts) " "

/-- Go:
```go
func ValidateQueryOptions(opts *QueryOptions) error {
	if opts == nil { return nil }
	if err := ValidateScope(opts.Scope); err != nil { return err }
	if err := ValidateDate(opts.After); err != nil { return err }
	if err := ValidateDate(opts.Before); err != nil { return err }
	return nil
}
```
-/
def ValidateQueryOptions (opts : Option QueryOptions) : Option fmt.GoError :=
  match opts with
  | none => none
  | some opts =>
    match ValidateScope opts.Scope with
    | some err => some err
    | none =>
      match ValidateDate opts.After with
      | some err => some err
      | none =>
        match ValidateDate opts.Before with
        | some err => some err
        | none => none

end search

/-! ## Go `error` values that wrap other errors -/

namespace errors

/-- A Go `error` as a command handler returns it. -/
inductive Error where
  /-- An error built by `fmt.Errorf` without `%w`. -/
  | plain (e : fmt.GoError) : Error
  /-- The `*fmt.wrapError` built by `fmt.Errorf(format, err)` with one `%w`. -/
  | wrapError (format : String) (err : Error) : Error
  /-- An error value produced outside the repository's sources, with the text
  its `Error()` method returns. -/
  | other (msg : String) : Error

/-- The text of a format with one `%w`: the verb is replaced by the text of the
wrapped error. -/
def substW : List Char → List Char → List Char
  | '%' :: 'w' :: rest, m => m ++ rest
  | c :: rest, m => c :: substW rest m
  | [], _ => []

/-- Go `err.Error()`, the text of an error.  The argument `sprintf` stands for
`fmt.Sprintf` on the formats that carry no `%w`. -/
def Error.text (sprintf : String → List fmt.Arg → String) : Error → String
  | .plain e => sprintf e.format e.args
  | .wrapError format err => ⟨substW format.data (err.text sprintf).data⟩
  | .other msg => msg

end errors

/-! ## Decoded JSON (`interface{}` values of `encoding/json`) -/

namespace json

/-- A value as `encoding/json` decodes it into `interface{}`; a number is kept
as its literal text, an object as its key/value pairs. -/
inductive Value where
  | null : Value
  | bool (b : Bool) : Value
  | number (text : String) : Value
  | string (s : String) : Value
  | array (items : List Value) : Value
  | object (fields : List (String × Value)) : Value

/-- Go `m[key]` on a decoded object; `none` when the value is not an object or
has no such key. -/
def Value.get? (v : Value) (key : String) : Option Value :=
  match v with
  | .object fields => fields.lookup key
  | _ => none

end json

/-! ## `internal/client`, as `runSend` uses it -/

namespace client

/-- Go `client.Client` as `NewWithConfig(baseURL, token, httpClient)` builds
it; the HTTP handle plays no part here. -/
structure Client where
  baseURL : String
  token : String
deriving DecidableEq, Repr

/-- Go `client.Message`: the field `runSend` reads. -/
structure Message where
  TS : String
deriving DecidableEq, Repr

end client

/-! ## `internal/cmd/messages` -/

namespace messages

/-- A `[]interface{}` of blocks; `none` is the nil slice. -/
abbrev Blocks := Option (List json.Value)

/-- What `bufio.NewScanner(reader)` yields when it scans the reader by lines:
the tokens of the successive `Scan()` calls that return true, then the value
of `scanner.Err()`. -/
structure Reader where
  tokens : List String
  err : Option errors.Error

/-- Go `type sendOptions struct`; the defaults are Go's zero values. -/
structure sendOptions where
  threadTS : String := ""
  blocksJSON : String := ""
  simple : Bool := false
  stdin : Option Reader := none

/-- The code `runSend` calls that lies outside the files at hand, and the
process environment it reads. -/
structure World where
  /-- Go `os.Stdin`. -/
  osStdin : Reader
  /-- Go `unescapeShellChars` of package `messages`. -/
  unescapeShellChars : String → String
  /-- Go `buildDefaultBlocks` of package `messages`. -/
  buildDefaultBlocks : String → List json.Value
  /-- Go `client.New()`. -/
  clientNew : Except errors.Error client.Client
  /-- Go `json.Unmarshal([]byte(s), &blocks)` on a nil `[]interface{}`: the
  error, or the value `blocks` holds afterwards. -/
  jsonUnmarshal : String → Except errors.Error Blocks
  /-- Go `(*client.Client).SendMessage(channel, text, threadTS, blocks)`. -/
  SendMessage : client.Client → String → String → String → Blocks →
    Except errors.Error client.Message
  /-- Go `client.WrapError(operation, err)`. -/
  WrapError : String → errors.Error → errors.Error
  /-- Go `output.IsJSON()`. -/
  IsJSON : Bool
  /-- Go `output.PrintJSON(msg)`. -/
  PrintJSON : client.Message → Option errors.Error

/-- The arguments of one `SendMessage` call. -/
structure SendCall where
  client : client.Client
  channel : String
  text : String
  threadTS : String
  blocks : Blocks

/-- An effect of `runSend` that is visible outside it. -/
inductive Event where
  /-- The scanner loop ran over the reader. -/
  | scanStdin (reader : Reader) : Event
  /-- The call `client.New()`. -/
  | clientNew : Event
  /-- The call `c.SendMessage(...)`. -/
  | sendMessage (call : SendCall) : Event
  /-- The call `output.PrintJSON(msg)`. -/
  | printJSON (msg : client.Message) : Event
  /-- The call `output.Printf(format, args...)`. -/
  | printf (format : String) (args : List fmt.Arg) : Event

/-- What a run of a command handler leaves behind: its effects in order and
the `error` it returns (`none` is nil). -/
structure Outcome where
  events : List Event
  err : Option errors.Error

/-- The `SendMessage` calls among the effects, in order. -/
def sendCalls : List Event → List SendCall
  | [] => []
  | .sendMessage call :: rest => call :: sendCalls rest
  | _ :: rest => sendCalls rest

/-- The scanner loop of `runSend`:
```go
var lines []byte
for scanner.Scan() {
	if len(lines) > 0 {
		lines = append(lines, '\n')
	}
	lines = append(lines, scanner.Bytes()...)
}
```
-/
def scanLoop : List String → List Char → List Char
  | [], lines => lines
  | token :: rest, lines =>
    let lines := if lines.length > 0 then lines ++ ['\n'] else lines
    scanLoop rest (lines ++ token.data)

/-- The value of `string(lines)` after the scanner loop. -/
def stdinText (tokens : List String) : String :=
  ⟨scanLoop tokens []⟩

/-- Lines 64–82 of `runSend`: the text to send before unescaping.
```go
if text == "-" {
	reader := opts.stdin
	if reader == nil { reader = os.Stdin }
	scanner := bufio.NewScanner(reader)
	... the scanner loop ...
	if err := scanner.Err(); err != nil {
		return fmt.Errorf("reading stdin: %w", err)
	}
	text = string(lines)
}
```
-/
def readText (w : World) (text : String) (opts : sendOptions) :
    List Event × Except errors.Error String :=
  if text = "-" then
    let reader := match opts.stdin with
      | some r => r
      | none => w.osStdin
    match reader.err with
    | some err => ([.scanStdin reader], .error (.wrapError "reading stdin: %w" err))
    | none => ([.scanStdin reader], .ok (stdinText reader.tokens))
  else ([], .ok text)

/-- Lines 91–97 of `runSend`:
```go
if c == nil {
	var err error
	c, err = client.New()
	if err != nil { return err }
}
```
-/
def resolveClient (w : World) (c : Option client.Client) :
    List Event × Except errors.Error client.Client :=
  match c with
  | some c => ([], .ok c)
  | none => ([.clientNew], w.clientNew)

/-- Lines 99–107 of `runSend`:
```go
var blocks []interface{}
if opts.blocksJSON != "" {
	if err := json.Unmarshal([]byte(opts.blocksJSON), &blocks); err != nil {
		return fmt.Errorf("invalid blocks JSON: %w", err)
	}
} else if !opts.simple {
	blocks = buildDefaultBlocks(text)
}
```
-/
def chooseBlocks (w : World) (opts : sendOptions) (text : String) :
    Except errors.Error Blocks :=
  if opts.blocksJSON ≠ "" then
    match w.jsonUnmarshal opts.blocksJSON with
    | .error err => .error (.wrapError "invalid blocks JSON: %w" err)
    | .ok blocks => .ok blocks
  else if !opts.simple then .ok (some (w.buildDefaultBlocks text))
  else .ok none

/-- Lines 109–119 of `runSend`:
```go
msg, err := c.SendMessage(channel, text, opts.threadTS, blocks)
if err != nil {
	return client.WrapError("send message", err)
}
if output.IsJSON() {
	return output.PrintJSON(msg)
}
output.Printf("Message sent (ts: %s)\n", msg.TS)
return nil
```
-/
def deliver (w : World) (c : client.Client) (channel text : String) (opts : sendOptions)
    (blocks : Blocks) : Outcome :=
  let call : SendCall := ⟨c, channel, text, opts.threadTS, blocks⟩
  match w.SendMessage c channel text opts.threadTS blocks with
  | .error err => ⟨[.sendMessage call], some (w.WrapError "send message" err)⟩
  | .ok msg =>
    if w.IsJSON then ⟨[.sendMessage call, .printJSON msg], w.PrintJSON msg⟩
    else ⟨[.sendMessage call, .printf "Message sent (ts: %s)\n" [.str msg.TS]], none⟩

/-- Go `runSend(channel, text, opts, c)`; the commented steps are those of the
source, in its order. -/
def runSend (w : World) (channel text : String) (opts : sendOptions)
    (c : Option client.Client) : Outcome :=
  -- Validate channel ID
  match validate.ChannelID channel with
  | some err => ⟨[], some (.plain err)⟩
  | none =>
  -- Validate thread timestamp if provided
  match (if opts.threadTS ≠ "" then validate.Timestamp opts.threadTS else none) with
  | some err => ⟨[], some (.plain err)⟩
  | none =>
  -- Read from stdin if text is "-"
  match readText w text opts with
  | (ev1, .error err) => ⟨ev1, some err⟩
  | (ev1, .ok text) =>
  -- Unescape shell-escaped characters (e.g., \! from zsh)
  let text := w.unescapeShellChars text
  if text = "" then
    ⟨ev1, some (.plain (fmt.Errorf "message text cannot be empty" []))⟩
  else
  match resolveClient w c with
  | (ev2, .error err) => ⟨ev1 ++ ev2, some err⟩
  | (ev2, .ok c) =>
  match chooseBlocks w opts text with
  | .error err => ⟨ev1 ++ ev2, some err⟩
  | .ok blocks =>
  let out := deliver w c channel text opts blocks
  ⟨ev1 ++ ev2 ++ out.events, out.err⟩

/-- Modelled from the spec: `buildDefaultBlocks` of package `messages` is not
among the sources.  The spec has it synthesize "a single default content block
wrapping the text in the platform's lightweight-markup container", and
`TestBuildDefaultBlocks` fixes the shape: one block of type `section` whose
`text` object has type `mrkdwn` and the given text. -/
def buildDefaultBlocks (text : String) : List json.Value :=
  [.object [("type", .string "section"),
            ("text", .object [("type", .string "mrkdwn"), ("text", .string text)])]]

/-- The blocks document of `TestRunSend_WithBlocks`:
`[{"type":"section","text":{"type":"mrkdwn","text":"Hello"}}]`. -/
def testBlocksJSON : String :=
  "[\x7b\"type\":\"section\",\"text\":\x7b\"type\":\"mrkdwn\",\"text\":\"Hello\"\x7d\x7d]"

/-- A world for running examples: a server that accepts every message,
plain-text output, empty standard input, no stored credential, default blocks
as modelled above, and a decoder that knows the one blocks document the
examples use and rejects every other text the way `encoding/json` rejects
`not valid json`.  `unescapeShellChars` is not among the sources; this world
hands every text back as it is, and the examples only use texts without a
backslash, which hold nothing to unescape. -/
def exampleWorld : World where
  osStdin := ⟨[], none⟩
  unescapeShellChars := fun text => text
  buildDefaultBlocks := buildDefaultBlocks
  clientNew := .error (.other "no API token configured")
  jsonUnmarshal := fun s =>
    if s = testBlocksJSON then .ok (some (buildDefaultBlocks "Hello"))
    else .error (.other "invalid character 'o' in literal null (expecting 'u')")
  SendMessage := fun _ _ _ _ _ => .ok ⟨"1234567890.123456"⟩
  WrapError := fun operation err => .wrapError (operation ++ ": %w") err
  IsJSON := false
  PrintJSON := fun _ => none

end messages

/-! ## More of `strings`: `ToLower` and `TrimSpace` -/

namespace strings

/-- Go `unicode.ToLower` on the ASCII letters `A`–`Z`; a rune outside that
range is left as it is.  (Go maps the letters outside ASCII by the Unicode
case tables, which are not modelled; none of those mappings yields `y`, `e` or
`s`.) -/
def lowerRune (c : Char) : Char :=
  if 'A'.toNat ≤ c.toNat ∧ c.toNat ≤ 'Z'.toNat then Char.ofNat (c.toNat + 32) else c

/-- Go `strings.ToLower(s)` as far as ASCII goes: every rune is mapped by
`lowerRune`, so the letters `A`–`Z` are lowered as in Go and every other rune
is kept, where Go would also lower the letters outside ASCII.  The one use,
the comparison of the answer with `y` and `yes` in `runDeleteToken`, cannot
tell the two apart. -/
def ToLower (s : String) : String :=
  ⟨s.data.map lowerRune⟩

/-- Go `unicode.IsSpace(r)`: in Latin-1 the runes `\t`, `\n`, `\v`, `\f`,
`\r`, space, U+0085 and U+00A0; beyond it the runes with the White_Space
property: U+1680, U+2000–U+200A, U+2028, U+2029, U+202F, U+205F, U+3000. -/
def IsSpace (r : Char) : Bool :=
  let n := r.toNat
  n = 9 || n = 10 || n = 11 || n = 12 || n = 13 || n = 32 || n = 0x85 || n = 0xA0 ||
  n = 0x1680 || (decide (0x2000 ≤ n) && decide (n ≤ 0x200A)) || n = 0x2028 || n = 0x2029 ||
  n = 0x202F || n = 0x205F || n = 0x3000

/-- Go `strings.TrimSpace(s)`: all leading and trailing white space removed. -/
def TrimSpace (s : String) : String :=
  ⟨((s.data.dropWhile IsSpace).reverse.dropWhile IsSpace).reverse⟩

end strings

/-! ## `internal/client`: list operations -/

namespace client

/-- Modelled from the spec: the `Page` of section 3, "a decoded response body
plus a next-cursor field (empty string signifies no more pages)".  The client
package is not among the sources; only its tests are. -/
structure Page (α : Type) where
  items : List α
  nextCursor : String

/-- Modelled from the spec: what a list operation leaves behind.  `requests`
holds the cursor parameter of every request issued, in order (`none` for a
request without one); `result` is the accumulated items, the first error, or
`none` when the server stopped answering while a page was still due. -/
structure Listing (α : Type) where
  requests : List (Option String)
  result : Option (Except errors.Error (List α))

/-- Modelled from the spec: the Paginator of section 4.3, which the list
operations (`ListChannels`, `ListUsers`, ...) of the absent client package
delegate to.  It "repeatedly invoke[s] Transport, using the previous page's
non-empty cursor as the next request's cursor parameter, until a page returns
an empty/absent cursor", accumulates the items "concatenating pages in request
order", and "fails with the first" error with "no partial results".  The
server is the list of its successive responses: request `K` is answered by
element `K`. -/
def paginate {α : Type} :
    List (Except errors.Error (Page α)) → Option String → List α → List (Option String) →
      Listing α
  | [], cursor, _, requests => ⟨requests ++ [cursor], none⟩
  | .error err :: _, cursor, _, requests => ⟨requests ++ [cursor], some (.error err)⟩
  | .ok page :: rest, cursor, acc, requests =>
    if page.nextCursor = "" then
      ⟨requests ++ [cursor], some (.ok (acc ++ page.items))⟩
    else
      paginate rest (some page.nextCursor) (acc ++ page.items) (requests ++ [cursor])

/-- Modelled from the spec: a list operation such as `ListChannels`: the
Paginator started without a cursor and with nothing accumulated. -/
def listAll {α : Type} (responses : List (Except errors.Error (Page α))) : Listing α :=
  paginate responses none [] []

/-- Go `client.AuthInfo`: the fields `runTest` reads. -/
structure AuthInfo where
  Team : String
  User : String
  BotID : String
deriving DecidableEq, Repr

end client

/-! ## `internal/cmd/config` -/

namespace config

/-- Go `type deleteTokenOptions struct`; the defaults are Go's zero values. -/
structure deleteTokenOptions where
  force : Bool := false
  stdin : Option messages.Reader := none

/-- Go `type testOptions struct{}`. -/
structure testOptions where

/-- The code the `config` handlers call that lies outside the files at hand,
and the process environment they read. -/
structure World where
  /-- Go `os.Stdin`. -/
  osStdin : messages.Reader
  /-- Go `keychain.DeleteAPIToken()`: the error it returns (`none` is nil). -/
  DeleteAPIToken : Option errors.Error
  /-- Go `keychain.IsSecureStorage()`. -/
  IsSecureStorage : Bool
  /-- Go `client.New()`. -/
  clientNew : Except errors.Error client.Client
  /-- Go `(*client.Client).AuthTest()`. -/
  AuthTest : client.Client → Except errors.Error client.AuthInfo

/-- An effect of a `config` handler that is visible outside it. -/
inductive Event where
  /-- The call `output.Println(line)`. -/
  | println (line : String) : Event
  /-- The call `output.Printf(format)`. -/
  | printf (format : String) : Event
  /-- The call `output.KeyValue(key, value)`. -/
  | keyValue (key value : String) : Event
  /-- The call `scanner.Scan()` on the reader. -/
  | scan : Event
  /-- The call `keychain.DeleteAPIToken()`. -/
  | deleteAPIToken : Event
  /-- The call `client.New()`. -/
  | clientNew : Event
  /-- The call `c.AuthTest()`. -/
  | authTest (c : client.Client) : Event
deriving DecidableEq, Repr

/-- What a run of a `config` handler leaves behind: its effects in order and
the `error` it returns (`none` is nil). -/
structure Outcome where
  events : List Event
  err : Option errors.Error

/-- Lines 39–56 of `runDeleteToken`: the effects of the confirmation prompt and
whether it ended the run with `Cancelled.`
```go
if !opts.force {
	reader := opts.stdin
	if reader == nil { reader = os.Stdin }
	output.Println("About to delete the stored Slack API token.")
	output.Printf("Are you sure? [y/N]: ")
	scanner := bufio.NewScanner(reader)
	if scanner.Scan() {
		confirm := strings.TrimSpace(strings.ToLower(scanner.Text()))
		if confirm != "y" && confirm != "yes" {
			output.Println("Cancelled.")
			return nil
		}
	}
}
```
-/
def confirmDelete (w : World) (opts : deleteTokenOptions) : List Event × Bool :=
  if !opts.force then
    let reader := match opts.stdin with
      | some r => r
      | none => w.osStdin
    let prompt : List Event :=
      [.println "About to delete the stored Slack API token.",
       .printf "Are you sure? [y/N]: ", .scan]
    match reader.tokens with
    | text :: _ =>
      let confirm := strings.TrimSpace (strings.ToLower text)
      if confirm ≠ "y" ∧ confirm ≠ "yes" then (prompt ++ [.println "Cancelled."], true)
      else (prompt, false)
    | [] => (prompt, false)
  else ([], false)

/-- Go `runDeleteToken(opts)`; after the prompt:
```go
if err := keychain.DeleteAPIToken(); err != nil {
	return fmt.Errorf("failed to delete token: %w", err)
}
if keychain.IsSecureStorage() {
	output.Println("API token deleted from Keychain")
} else {
	output.Println("API token deleted from config file")
}
return nil
```
-/
def runDeleteToken (w : World) (opts : deleteTokenOptions) : Outcome :=
  match confirmDelete w opts with
  | (ev, true) => ⟨ev, none⟩
  | (ev, false) =>
    match w.DeleteAPIToken with
    | some err =>
      ⟨ev ++ [.deleteAPIToken], some (.wrapError "failed to delete token: %w" err)⟩
    | none =>
      if w.IsSecureStorage then
        ⟨ev ++ [.deleteAPIToken, .println "API token deleted from Keychain"], none⟩
      else
        ⟨ev ++ [.deleteAPIToken, .println "API token deleted from config file"], none⟩

/-- Go `runTest(opts, c)`:
```go
output.Println("Testing Slack authentication...")
if c == nil {
	var err error
	c, err = client.New()
	if err != nil { return err }
}
info, err := c.AuthTest()
if err != nil {
	output.Println("Authentication failed")
	return err
}
output.Println("Authentication successful")
output.KeyValue("Workspace", info.Team)
output.KeyValue("User", info.User)
if info.BotID != "" {
	output.KeyValue("Bot ID", info.BotID)
}
return nil
```
-/
def runTest (w : World) (_opts : testOptions) (c : Option client.Client) : Outcome :=
  let ev0 : List Event := [.println "Testing Slack authentication..."]
  let resolved : List Event × Except errors.Error client.Client :=
    match c with
    | some c => (ev0, .ok c)
    | none => (ev0 ++ [.clientNew], w.clientNew)
  match resolved with
  | (ev1, .error err) => ⟨ev1, some err⟩
  | (ev1, .ok c) =>
    match w.AuthTest c with
    | .error err => ⟨ev1 ++ [.authTest c, .println "Authentication failed"], some err⟩
    | .ok info =>
      let ev2 : List Event :=
        ev1 ++ [.authTest c, .println "Authentication successful",
          .keyValue "Workspace" info.Team, .keyValue "User" info.User]
      if info.BotID ≠ "" then ⟨ev2 ++ [.keyValue "Bot ID" info.BotID], none⟩
      else ⟨ev2, none⟩

/-- The number of `keychain.DeleteAPIToken()` calls among the effects. -/
def deleteCalls (events : List Event) : Nat :=
  events.count .deleteAPIToken

/-- The number of `scanner.Scan()` calls among the effects. -/
def scanCalls (events : List Event) : Nat :=
  events.count .scan

/-- The `AuthTest` calls among the effects, in order. -/
def authCalls : List Event → List client.Client
  | [] => []
  | .authTest c :: rest => c :: authCalls rest
  | _ :: rest => authCalls rest

/-- A world for running examples: deletion succeeds, the token lives in a
config file, standard input is at its end, and no credential is stored. -/
def exampleWorld : World where
  osStdin := ⟨[], none⟩
  DeleteAPIToken := none
  IsSecureStorage := false
  clientNew := .error (.other "no API token configured")
  AuthTest := fun _ => .error (.other "slack API error: invalid_auth")

end config

namespace messages

/-- Whether an effect is output to the user (`output.PrintJSON`,
`output.Printf`). -/
def Event.isOutput : Event → Bool
  | .printJSON _ => true
  | .printf _ _ => true
  | _ => false

/-- Whether an effect is the call `client.New()`. -/
def Event.isClientNew : Event → Bool
  | .clientNew => true
  | _ => false

end messages

/-! ## The claims' own wording, for comparison with the code -/

namespace spec

/-- The phrase "with one leading `c` removed": the first rune is dropped when
it is `c`; nothing else changes. -/
def removeOneLeading (c : Char) (s : String) : String :=
  match s.data with
  | x :: rest => if x = c then ⟨rest⟩ else s
  | [] => s

/-- A part that is present only when its condition holds. -/
def partWhen (cond : Bool) (part : String) : List String :=
  if cond then [part] else []

/-- The ordered list of parts as the claim on `BuildQuery` words it. -/
def queryParts (baseQuery : String) (o : search.QueryOptions) : List String :=
  partWhen (o.Scope != "" && o.Scope != "all") ("is:" ++ o.Scope) ++
  partWhen (o.InChannel != "") ("in:#" ++ removeOneLeading '#' o.InChannel) ++
  partWhen (o.FromUser != "") ("from:@" ++ removeOneLeading '@' o.FromUser) ++
  partWhen (o.After != "") ("after:" ++ o.After) ++
  partWhen (o.Before != "") ("before:" ++ o.Before) ++
  partWhen o.HasLink "has:link" ++
  partWhen o.HasReaction "has:reaction" ++
  partWhen o.HasPin "has:pin" ++
  partWhen (o.FileType != "") ("type:" ++ o.FileType) ++
  [baseQuery]

/-- The shape `YYYY-MM-DD`: exactly ten runes, ASCII digits except for the two
dashes. -/
def isDateShape (d : String) : Prop :=
  ∃ y1 y2 y3 y4 m1 m2 d1 d2 : Char,
    y1.isDigit = true ∧ y2.isDigit = true ∧ y3.isDigit = true ∧ y4.isDigit = true ∧
    m1.isDigit = true ∧ m2.isDigit = true ∧ d1.isDigit = true ∧ d2.isDigit = true ∧
    d.data = [y1, y2, y3, y4, '-', m1, m2, '-', d1, d2]

/-- The shape of an identifier: one of the two allowed first letters, then
one or more runes that are each an ASCII uppercase letter or an ASCII digit. -/
def isIDShape (p1 p2 : Char) (id : String) : Prop :=
  ∃ c tl, id.data = c :: tl ∧ (c = p1 ∨ c = p2) ∧ tl ≠ [] ∧
    ∀ x ∈ tl, (x.isUpper || x.isDigit) = true

/-- The default block the claim on `runSend` describes: the list holds
exactly one block, of type `section`, whose `text` object has type `mrkdwn`
and the given text. -/
def isDefaultBlocksFor (text : String) (blocks : messages.Blocks) : Prop :=
  ∃ block, blocks = some [block] ∧
    block.get? "type" = some (.string "section") ∧
    ∃ textObj, block.get? "text" = some textObj ∧
      textObj.get? "type" = some (.string "mrkdwn") ∧
      textObj.get? "text" = some (.string text)

/-- The shape of a message timestamp: one or more ASCII digits, one dot, one
or more ASCII digits, and nothing else. -/
def isTimestampShape (ts : String) : Prop :=
  ∃ whole frac : List Char, ts.data = whole ++ '.' :: frac ∧ whole ≠ [] ∧ frac ≠ [] ∧
    (∀ x ∈ whole, x.isDigit = true) ∧ (∀ x ∈ frac, x.isDigit = true)

end spec

/-- The string of `k` colons. -/
def colons (k : Nat) : String := ⟨List.replicate k ':'⟩

/-! ## The derivative matcher agrees with the reference semantics -/

namespace regexp

theorem matches_noMatch_iff (pre mid post : List Char) :
    Matches .noMatch pre mid post ↔ False := by
  constructor
  · intro h; cases h
  · intro h; exact h.elim

theorem matches_emptyMatch_iff (pre mid post : List Char) :
    Matches .emptyMatch pre mid post ↔ mid = [] := by
  constructor
  · intro h; cases h; rfl
  · rintro rfl; exact Matches.emptyMatch _ _

theorem matches_beginText_iff (pre mid post : List Char) :
    Matches .beginText pre mid post ↔ pre = [] ∧ mid = [] := by
  constructor
  · intro h; cases h; exact ⟨rfl, rfl⟩
  · rintro ⟨rfl, rfl⟩; exact Matches.beginText _

theorem matches_endText_iff (pre mid post : List Char) :
    Matches .endText pre mid post ↔ mid = [] ∧ post = [] := by
  constructor
  · intro h; cases h; exact ⟨rfl, rfl⟩
  · rintro ⟨rfl, rfl⟩; exact Matches.endText _

theorem matches_anyChar_iff (pre mid post : List Char) :
    Matches .anyChar pre mid post ↔ ∃ c, mid = [c] := by
  constructor
  · intro h; cases h; exact ⟨_, rfl⟩
  · rintro ⟨c, rfl⟩; exact Matches.anyChar _ _ _

theorem matches_charClass_iff (rs : List (Char × Char)) (pre mid post : List Char) :
    Matches (.charClass rs) pre mid post ↔ ∃ c, mid = [c] ∧ inClass rs c = true := by
  constructor
  · intro h; cases h with
    | charClass _ _ _ c hc => exact ⟨c, rfl, hc⟩
  · rintro ⟨c, rfl, hc⟩; exact Matches.charClass _ _ _ _ hc

theorem matches_concat_iff (a b : Regexp) (pre mid post : List Char) :
    Matches (.concat a b) pre mid post ↔
      ∃ u v, mid = u ++ v ∧ Matches a pre u (v ++ post) ∧ Matches b (pre ++ u) v post := by
  constructor
  · intro h; cases h with
    | concat _ _ _ u v _ ha hb => exact ⟨u, v, rfl, ha, hb⟩
  · rintro ⟨u, v, rfl, ha, hb⟩; exact Matches.concat _ _ _ _ _ _ ha hb

theorem matches_alternate_iff (a b : Regexp) (pre mid post : List Char) :
    Matches (.alternate a b) pre mid post ↔
      Matches a pre mid post ∨ Matches b pre mid post := by
  constructor
  · intro h; cases h with
    | altLeft _ _ _ _ _ ha => exact Or.inl ha
    | altRight _ _ _ _ _ hb => exact Or.inr hb
  · rintro (ha | hb)
    · exact Matches.altLeft _ _ _ _ _ ha
    · exact Matches.altRight _ _ _ _ _ hb

theorem matches_star_iff (a : Regexp) (pre mid post : List Char) :
    Matches (.star a) pre mid post ↔
      mid = [] ∨ ∃ u v, u ≠ [] ∧ mid = u ++ v ∧ Matches a pre u (v ++ post) ∧
        Matches (.star a) (pre ++ u) v post := by
  constructor
  · intro h; cases h with
    | starNil _ _ _ => exact Or.inl rfl
    | starCons _ _ u v _ hu ha hs => exact Or.inr ⟨u, v, hu, rfl, ha, hs⟩
  · rintro (rfl | ⟨u, v, hu, rfl, ha, hs⟩)
    · exact Matches.starNil _ _ _
    · exact Matches.starCons _ _ _ _ _ hu ha hs

/-- `nullable` decides matching of the empty stretch. -/
theorem nullable_iff (r : Regexp) (pre post : List Char) :
    nullable pre.isEmpty post.isEmpty r = true ↔ Matches r pre [] post := by
  induction r with
  | noMatch => simp [nullable, matches_noMatch_iff]
  | emptyMatch => simp [nullable, matches_emptyMatch_iff]
  | beginText => simp [nullable, matches_beginText_iff]
  | endText => simp [nullable, matches_endText_iff]
  | anyChar => simp [nullable, matches_anyChar_iff]
  | charClass rs => simp [nullable, matches_charClass_iff]
  | concat a b iha ihb =>
    simp only [nullable, Bool.and_eq_true, iha, ihb, matches_concat_iff]
    constructor
    · rintro ⟨ha, hb⟩
      exact ⟨[], [], rfl, by simpa using ha, by simpa using hb⟩
    · rintro ⟨u, v, huv, ha, hb⟩
      have hu : u = [] := (List.append_eq_nil.mp huv.symm).1
      have hv : v = [] := (List.append_eq_nil.mp huv.symm).2
      subst hu hv
      exact ⟨by simpa using ha, by simpa using hb⟩
  | alternate a b iha ihb =>
    simp only [nullable, Bool.or_eq_true, iha, ihb, matches_alternate_iff]
  | star a _ =>
    simp only [nullable, true_iff]
    exact Matches.starNil _ _ _

/-- Reading one rune and taking the derivative preserves the language. -/
theorem deriv_iff (r : Regexp) (c : Char) (pre mid post : List Char) :
    Matches (deriv pre.isEmpty c r) (pre ++ [c]) mid post ↔
      Matches r pre (c :: mid) post := by
  induction r generalizing mid post with
  | noMatch => simp [deriv, matches_noMatch_iff]
  | emptyMatch => simp [deriv, matches_noMatch_iff, matches_emptyMatch_iff]
  | beginText => simp [deriv, matches_noMatch_iff, matches_beginText_iff]
  | endText => simp [deriv, matches_noMatch_iff, matches_endText_iff]
  | anyChar => simp [deriv, matches_emptyMatch_iff, matches_anyChar_iff]
  | charClass rs =>
    by_cases hc : inClass rs c = true
    · simp only [deriv, hc, if_true, matches_emptyMatch_iff, matches_charClass_iff]
      constructor
      · rintro rfl; exact ⟨c, rfl, hc⟩
      · rintro ⟨d, hd, -⟩
        simp only [List.cons.injEq] at hd
        exact hd.2
    · simp only [deriv, hc, if_false, Bool.false_eq_true, matches_noMatch_iff,
        matches_charClass_iff, false_iff]
      rintro ⟨d, hd, hin⟩
      simp only [List.cons.injEq] at hd
      rw [← hd.1] at hin
      exact hc hin
  | concat a b iha ihb =>
    simp only [deriv, matches_alternate_iff]
    rw [matches_concat_iff, matches_concat_iff]
    constructor
    · rintro (⟨u, v, rfl, ha, hb⟩ | h)
      · refine ⟨c :: u, v, rfl, (iha _ _).mp ha, ?_⟩
        simpa using hb
      · by_cases hn : nullable pre.isEmpty false a = true
        · rw [if_pos hn] at h
          have ha : Matches a pre [] (c :: mid ++ post) :=
            (nullable_iff a pre (c :: mid ++ post)).mp (by simpa using hn)
          exact ⟨[], c :: mid, rfl, by simpa using ha, by simpa using (ihb _ _).mp h⟩
        · rw [if_neg hn] at h
          exact ((matches_noMatch_iff _ _ _).mp h).elim
    · rintro ⟨u, v, huv, ha, hb⟩
      cases u with
      | nil =>
        right
        simp only [List.nil_append] at huv
        subst huv
        have hn : nullable pre.isEmpty false a = true := by
          have := (nullable_iff a pre (c :: mid ++ post)).mpr (by simpa using ha)
          simpa using this
        rw [if_pos hn]
        exact (ihb _ _).mpr (by simpa using hb)
      | cons x u =>
        left
        simp only [List.cons_append, List.cons.injEq] at huv
        obtain ⟨rfl, rfl⟩ := huv
        exact ⟨u, v, rfl, (iha _ _).mpr ha, by simpa using hb⟩
  | alternate a b iha ihb =>
    simp only [deriv, matches_alternate_iff, iha, ihb]
  | star a iha =>
    simp only [deriv]
    rw [matches_concat_iff, matches_star_iff]
    constructor
    · rintro ⟨u, v, rfl, ha, hs⟩
      exact Or.inr ⟨c :: u, v, by simp, rfl, (iha _ _).mp ha, by simpa using hs⟩
    · rintro (h | ⟨u, v, hu, huv, ha, hs⟩)
      · cases h
      · cases u with
        | nil => exact (hu rfl).elim
        | cons x u =>
          simp only [List.cons_append, List.cons.injEq] at huv
          obtain ⟨rfl, rfl⟩ := huv
          exact ⟨u, v, rfl, (iha _ _).mpr ha, by simpa using hs⟩

/-- The derivative matcher decides matching of the whole remaining text. -/
theorem matchFrom_iff (s : List Char) (r : Regexp) (pre : List Char) :
    matchFrom r pre.isEmpty s = true ↔ Matches r pre s [] := by
  induction s generalizing r pre with
  | nil => simpa [matchFrom] using nullable_iff r pre []
  | cons c cs ih =>
    have h := ih (deriv pre.isEmpty c r) (pre ++ [c])
    have he : (pre ++ [c]).isEmpty = false := by cases pre <;> rfl
    rw [he] at h
    simp only [matchFrom]
    rw [h, deriv_iff]

theorem matches_star_anyChar (mid pre post : List Char) :
    Matches (.star .anyChar) pre mid post := by
  induction mid generalizing pre with
  | nil => exact Matches.starNil _ _ _
  | cons c cs ih =>
    exact Matches.starCons _ pre [c] cs post (by simp) (Matches.anyChar _ _ _) (ih _)

/-- `MatchString` is an unanchored search: some stretch of the text matches. -/
theorem MatchString_iff (re : Regexp) (s : String) :
    MatchString re s = true ↔
      ∃ pre mid post, s.data = pre ++ mid ++ post ∧ Matches re pre mid post := by
  unfold MatchString
  have h := matchFrom_iff s.data (.concat (.star .anyChar) (.concat re (.star .anyChar))) []
  simp only [List.isEmpty_nil] at h
  rw [h]
  constructor
  · intro hm
    obtain ⟨pre, rest, hs, -, hr⟩ := (matches_concat_iff _ _ _ _ _).mp hm
    obtain ⟨mid, post, hrest, hre, -⟩ := (matches_concat_iff _ _ _ _ _).mp hr
    refine ⟨pre, mid, post, ?_, ?_⟩
    · rw [hs, hrest, List.append_assoc]
    · simpa using hre
  · rintro ⟨pre, mid, post, hs, hre⟩
    rw [hs, List.append_assoc]
    refine Matches.concat _ _ _ _ _ _ (matches_star_anyChar _ _ _) ?_
    refine Matches.concat _ _ _ _ _ _ (by simpa using hre) (matches_star_anyChar _ _ _)

/-! ### Shapes used by the repository's patterns -/

theorem matches_star_charClass_iff (rs : List (Char × Char)) (mid pre post : List Char) :
    Matches (.star (.charClass rs)) pre mid post ↔ ∀ x ∈ mid, inClass rs x = true := by
  induction mid generalizing pre with
  | nil => simpa using Matches.starNil _ _ _
  | cons c cs ih =>
    rw [matches_star_iff]
    constructor
    · rintro (h | ⟨u, v, -, huv, hu, hv⟩)
      · cases h
      · obtain ⟨d, rfl, hd⟩ := (matches_charClass_iff _ _ _ _).mp hu
        simp only [List.singleton_append, List.cons.injEq] at huv
        obtain ⟨rfl, rfl⟩ := huv
        intro x hx
        rcases List.mem_cons.mp hx with rfl | hx
        · exact hd
        · exact (ih _).mp hv x hx
    · intro h
      refine Or.inr ⟨[c], cs, by simp, rfl, ?_, ?_⟩
      · exact Matches.charClass _ _ _ _ (h c (List.mem_cons_self _ _))
      · exact (ih _).mpr (fun x hx => h x (List.mem_cons_of_mem _ hx))

theorem matches_plus_charClass_iff (rs : List (Char × Char)) (mid pre post : List Char) :
    Matches (Regexp.plus (.charClass rs)) pre mid post ↔
      mid ≠ [] ∧ ∀ x ∈ mid, inClass rs x = true := by
  unfold Regexp.plus
  rw [matches_concat_iff]
  constructor
  · rintro ⟨u, v, rfl, hu, hv⟩
    obtain ⟨d, rfl, hd⟩ := (matches_charClass_iff _ _ _ _).mp hu
    refine ⟨by simp, ?_⟩
    intro x hx
    rcases List.mem_cons.mp hx with rfl | hx
    · exact hd
    · exact (matches_star_charClass_iff _ _ _ _).mp hv x hx
  · rintro ⟨hne, h⟩
    cases mid with
    | nil => exact (hne rfl).elim
    | cons c cs =>
      refine ⟨[c], cs, rfl, Matches.charClass _ _ _ _ (h c (List.mem_cons_self _ _)), ?_⟩
      exact (matches_star_charClass_iff _ _ _ _).mpr
        (fun x hx => h x (List.mem_cons_of_mem _ hx))

/-- A pattern that starts with `^` can only match at the beginning of the
text. -/
theorem matches_beginText_concat_iff (b : Regexp) (pre mid post : List Char) :
    Matches (.concat .beginText b) pre mid post ↔ pre = [] ∧ Matches b [] mid post := by
  rw [matches_concat_iff]
  constructor
  · rintro ⟨u, v, rfl, hu, hv⟩
    obtain ⟨rfl, rfl⟩ := (matches_beginText_iff _ _ _).mp hu
    exact ⟨rfl, by simpa using hv⟩
  · rintro ⟨rfl, h⟩
    exact ⟨[], mid, rfl, Matches.beginText _, by simpa using h⟩

/-- A pattern that ends with `$` can only match up to the end of the text. -/
theorem matches_concat_endText_iff (a : Regexp) (pre mid post : List Char) :
    Matches (.concat a .endText) pre mid post ↔ post = [] ∧ Matches a pre mid [] := by
  rw [matches_concat_iff]
  constructor
  · rintro ⟨u, v, rfl, hu, hv⟩
    obtain ⟨rfl, rfl⟩ := (matches_endText_iff _ _ _).mp hv
    exact ⟨rfl, by simpa using hu⟩
  · rintro ⟨rfl, h⟩
    exact ⟨mid, [], by simp, by simpa using h, Matches.endText _⟩

/-- A class followed by the rest of the pattern consumes exactly one rune of
the class. -/
theorem matches_charClass_concat_iff (rs : List (Char × Char)) (b : Regexp)
    (pre mid post : List Char) :
    Matches (.concat (.charClass rs) b) pre mid post ↔
      ∃ c rest, mid = c :: rest ∧ inClass rs c = true ∧ Matches b (pre ++ [c]) rest post := by
  rw [matches_concat_iff]
  constructor
  · rintro ⟨u, v, rfl, hu, hv⟩
    obtain ⟨d, rfl, hd⟩ := (matches_charClass_iff _ _ _ _).mp hu
    exact ⟨d, v, rfl, hd, hv⟩
  · rintro ⟨c, rest, rfl, hc, hb⟩
    exact ⟨[c], rest, rfl, Matches.charClass _ _ _ _ hc, hb⟩

theorem matches_concat_assoc_iff (a b c : Regexp) (pre mid post : List Char) :
    Matches (.concat (.concat a b) c) pre mid post ↔
      Matches (.concat a (.concat b c)) pre mid post := by
  simp only [matches_concat_iff]
  constructor
  · rintro ⟨uv, w, rfl, ⟨u, v, rfl, ha, hb⟩, hc⟩
    refine ⟨u, v ++ w, by simp, by simpa using ha, v, w, rfl, hb, by simpa using hc⟩
  · rintro ⟨u, vw, rfl, ha, v, w, rfl, hb, hc⟩
    refine ⟨u ++ v, w, by simp, ⟨u, v, rfl, by simpa using ha, hb⟩, by simpa using hc⟩

theorem matches_emptyMatch_concat_iff (b : Regexp) (pre mid post : List Char) :
    Matches (.concat .emptyMatch b) pre mid post ↔ Matches b pre mid post := by
  rw [matches_concat_iff]
  constructor
  · rintro ⟨u, v, rfl, hu, hv⟩
    obtain rfl := (matches_emptyMatch_iff _ _ _).mp hu
    simpa using hv
  · intro h
    exact ⟨[], mid, rfl, Matches.emptyMatch _ _, by simpa using h⟩

/-- The shape `^[first][rest]+$` of the identifier patterns: the whole text is
one rune of `first` followed by one or more runes of `rest`. -/
theorem MatchString_idShape_iff (first rest : List (Char × Char)) (s : String) :
    MatchString (.concat .beginText (.concat (.charClass first)
        (.concat (Regexp.plus (.charClass rest)) .endText))) s = true ↔
      ∃ c tl, s.data = c :: tl ∧ inClass first c = true ∧ tl ≠ [] ∧
        ∀ x ∈ tl, inClass rest x = true := by
  rw [MatchString_iff]
  constructor
  · rintro ⟨pre, mid, post, hs, hm⟩
    obtain ⟨hpre, h1⟩ := (matches_beginText_concat_iff _ _ _ _).mp hm
    obtain ⟨c, tl, hmid, hc, h2⟩ := (matches_charClass_concat_iff _ _ _ _ _).mp h1
    obtain ⟨hpost, h3⟩ := (matches_concat_endText_iff _ _ _ _).mp h2
    obtain ⟨hne, htl⟩ := (matches_plus_charClass_iff _ _ _ _).mp h3
    subst hpre hmid hpost
    exact ⟨c, tl, by simpa using hs, hc, hne, htl⟩
  · rintro ⟨c, tl, hs, hc, hne, htl⟩
    refine ⟨[], c :: tl, [], by simpa using hs, ?_⟩
    refine (matches_beginText_concat_iff _ _ _ _).mpr ⟨rfl, ?_⟩
    refine (matches_charClass_concat_iff _ _ _ _ _).mpr ⟨c, tl, rfl, hc, ?_⟩
    refine (matches_concat_endText_iff _ _ _ _).mpr ⟨rfl, ?_⟩
    exact (matches_plus_charClass_iff _ _ _ _).mpr ⟨hne, htl⟩

theorem inClass_single_iff (a c : Char) : inClass [(a, a)] c = true ↔ c = a := by
  simp only [inClass, List.any_cons, List.any_nil, Bool.or_false, Bool.and_eq_true,
    decide_eq_true_eq]
  constructor
  · rintro ⟨h1, h2⟩
    have : c.toNat = a.toNat := Nat.le_antisymm h2 h1
    exact Char.ext (UInt32.ext this)
  · rintro rfl; exact ⟨le_refl _, le_refl _⟩

theorem inClass_digit_iff (c : Char) : inClass [('0', '9')] c = true ↔ c.isDigit = true := by
  simp only [inClass, List.any_cons, List.any_nil, Bool.or_false, Bool.and_eq_true,
    decide_eq_true_eq, Char.isDigit, ge_iff_le]
  rfl

theorem inClass_upperDigit_iff (c : Char) :
    inClass [('A', 'Z'), ('0', '9')] c = true ↔ (c.isUpper || c.isDigit) = true := by
  simp only [inClass, List.any_cons, List.any_nil, Bool.or_false, Bool.and_eq_true,
    Bool.or_eq_true, decide_eq_true_eq, Char.isDigit, Char.isUpper, ge_iff_le]
  rfl

end regexp

/-! ## Lemmas on the `strings` model -/

theorem dropWhile_replicate_append (c : Char) (k : Nat) (l : List Char) :
    (List.replicate k c ++ l).dropWhile (fun x => x == c) =
      l.dropWhile (fun x => x == c) := by
  induction k with
  | zero => simp
  | succ k ih => simp [List.replicate_succ, ih]

theorem trimLeftByte_replicate_append (c : Char) (k : Nat) (l : List Char)
    (h : l.head? ≠ some c) :
    strings.trimLeftByte (List.replicate k c ++ l) c = l := by
  unfold strings.trimLeftByte
  rw [dropWhile_replicate_append]
  cases l with
  | nil => rfl
  | cons a t =>
    have : a ≠ c := by simpa using h
    simp [this]

theorem trimRightByte_append_replicate (c : Char) (k : Nat) (l : List Char)
    (h : l.getLast? ≠ some c) :
    strings.trimRightByte (l ++ List.replicate k c) c = l := by
  unfold strings.trimRightByte
  rw [List.reverse_append, List.reverse_replicate, dropWhile_replicate_append]
  have h2 : l.reverse.head? ≠ some c := by simpa [List.head?_reverse] using h
  have key : ∀ r : List Char, r.head? ≠ some c →
      r.dropWhile (fun x => x == c) = r := by
    intro r hr
    cases r with
    | nil => rfl
    | cons a t =>
      have : a ≠ c := by simpa using hr
      simp [this]
  rw [key _ h2, List.reverse_reverse]

theorem HasPrefix_single_false (s : String) (c : Char)
    (h : strings.HasPrefix s ⟨[c]⟩ = false) : s.data.head? ≠ some c := by
  unfold strings.HasPrefix at h
  cases hs : s.data with
  | nil => simp
  | cons a t =>
    rw [hs] at h
    intro hc
    simp at hc
    subst hc
    simp at h

theorem HasSuffix_single_false (s : String) (c : Char)
    (h : strings.HasSuffix s ⟨[c]⟩ = false) : s.data.getLast? ≠ some c := by
  unfold strings.HasSuffix at h
  rcases List.eq_nil_or_concat s.data with hs | ⟨t, a, hs⟩
  · simp [hs]
  · rw [hs] at h
    intro hc
    rw [hs] at hc
    simp at hc
    subst hc
    simp at h

theorem foldl_sep_append (sep a : String) (l : List String) (b : String) :
    l.foldl (fun acc x => acc ++ sep ++ x) (a ++ b) =
      a ++ l.foldl (fun acc x => acc ++ sep ++ x) b := by
  induction l generalizing b with
  | nil => rfl
  | cons x xs ih =>
    simp only [List.foldl_cons]
    rw [← ih]
    simp only [String.append_assoc]

/-- Joining two or more elements puts the first, the separator, then the join
of the rest. -/
theorem Join_cons_cons (a b : String) (l : List String) (sep : String) :
    strings.Join (a :: b :: l) sep = a ++ sep ++ strings.Join (b :: l) sep := by
  have h1 : strings.Join (a :: b :: l) sep =
      l.foldl (fun acc x => acc ++ sep ++ x) (a ++ sep ++ b) := rfl
  have h2 : strings.Join (b :: l) sep = l.foldl (fun acc x => acc ++ sep ++ x) b := by
    cases l <;> rfl
  rw [h1, h2, foldl_sep_append]

theorem Join_singleton (a sep : String) : strings.Join [a] sep = a := rfl

theorem intercalate_go_eq (sep : String) (l : List String) (acc : String) :
    String.intercalate.go acc sep l = l.foldl (fun acc x => acc ++ sep ++ x) acc := by
  induction l generalizing acc with
  | nil => rfl
  | cons x xs ih => simp only [String.intercalate.go, List.foldl_cons, ih]

/-- Go's `strings.Join` and Lean's `String.intercalate` agree. -/
theorem Join_eq_intercalate (l : List String) (sep : String) :
    strings.Join l sep = sep.intercalate l := by
  cases l with
  | nil => rfl
  | cons a t =>
    cases t with
    | nil => rfl
    | cons b t => simp only [strings.Join, String.intercalate, intercalate_go_eq]

theorem Join_mem_infix (sep x : String) (l : List String) (h : x ∈ l) :
    ∃ pre post : String, strings.Join l sep = pre ++ x ++ post := by
  induction l with
  | nil => cases h
  | cons a t ih =>
    cases t with
    | nil =>
      have : x = a := by simpa using h
      subst this
      exact ⟨"", "", by simp [Join_singleton]⟩
    | cons b t =>
      rw [Join_cons_cons]
      rcases List.mem_cons.mp h with rfl | h
      · exact ⟨"", sep ++ strings.Join (b :: t) sep, by simp [String.append_assoc]⟩
      · obtain ⟨pre, post, hp⟩ := ih h
        exact ⟨a ++ sep ++ pre, post, by rw [hp]; simp [String.append_assoc]⟩

theorem TrimPrefix_of_not_HasPrefix (s p : String) (h : strings.HasPrefix s p = false) :
    strings.TrimPrefix s p = s := by
  simp [strings.TrimPrefix, h]

theorem HasPrefix_single_append (c : Char) (s : String) :
    strings.HasPrefix (String.mk [c] ++ s) ⟨[c]⟩ = true := by
  simp [strings.HasPrefix, String.data_append]

theorem TrimPrefix_single_append (c : Char) (s : String) :
    strings.TrimPrefix (String.mk [c] ++ s) ⟨[c]⟩ = s := by
  simp [strings.TrimPrefix, HasPrefix_single_append, String.data_append]

theorem TrimPrefix_single_eq_removeOneLeading (c : Char) (s : String) :
    strings.TrimPrefix s ⟨[c]⟩ = spec.removeOneLeading c s := by
  unfold strings.TrimPrefix strings.HasPrefix spec.removeOneLeading
  cases hs : s.data with
  | nil => simp
  | cons x rest =>
    by_cases hx : x = c
    · simp [hx]
    · simp [hx]

theorem ne_empty_of_single_append (c : Char) (s : String) : String.mk [c] ++ s ≠ "" := by
  intro h
  have := congrArg String.data h
  simp [String.data_append] at this

/-- The date pattern matches exactly the texts of the shape `YYYY-MM-DD`. -/
theorem MatchString_datePattern_iff (d : String) :
    regexp.MatchString search.datePattern d = true ↔ spec.isDateShape d := by
  rw [regexp.MatchString_iff]
  simp only [search.datePattern, regexp.Regexp.rep, regexp.Regexp.lit,
    regexp.matches_beginText_concat_iff, regexp.matches_concat_assoc_iff,
    regexp.matches_emptyMatch_concat_iff, regexp.matches_charClass_concat_iff,
    regexp.matches_endText_iff, regexp.inClass_digit_iff, regexp.inClass_single_iff]
  unfold spec.isDateShape
  constructor
  · rintro ⟨pre, mid, post, hs, rfl, y1, r1, rfl, h1, y2, r2, rfl, h2, y3, r3, rfl, h3,
      y4, r4, rfl, h4, s1, r5, rfl, rfl, m1, r6, rfl, h5, m2, r7, rfl, h6, s2, r8, rfl, rfl,
      d1, r9, rfl, h7, d2, r10, rfl, h8, rfl, rfl⟩
    exact ⟨y1, y2, y3, y4, m1, m2, d1, d2, h1, h2, h3, h4, h5, h6, h7, h8, by simpa using hs⟩
  · rintro ⟨y1, y2, y3, y4, m1, m2, d1, d2, h1, h2, h3, h4, h5, h6, h7, h8, hs⟩
    exact ⟨[], _, [], by simpa using hs, rfl, y1, _, rfl, h1, y2, _, rfl, h2, y3, _, rfl, h3,
      y4, _, rfl, h4, '-', _, rfl, rfl, m1, _, rfl, h5, m2, _, rfl, h6, '-', _, rfl, rfl,
      d1, _, rfl, h7, d2, _, rfl, h8, rfl, rfl⟩

theorem MatchString_channelIDRegex_iff (id : String) :
    regexp.MatchString validate.channelIDRegex id = true ↔ spec.isIDShape 'C' 'G' id := by
  unfold validate.channelIDRegex spec.isIDShape
  rw [regexp.MatchString_idShape_iff]
  simp only [regexp.inClass_upperDigit_iff]
  have hcls : ∀ c : Char, regexp.inClass [('C', 'C'), ('G', 'G')] c = true ↔
      (c = 'C' ∨ c = 'G') := by
    intro c
    have h1 := regexp.inClass_single_iff 'C' c
    have h2 := regexp.inClass_single_iff 'G' c
    simp only [regexp.inClass, List.any_cons, List.any_nil, Bool.or_false,
      Bool.or_eq_true] at h1 h2 ⊢
    rw [h1, h2]
  simp only [hcls]

/-- The parts the code accumulates are the parts the claim lists. -/
theorem queryParts_eq_spec (q : String) (o : search.QueryOptions) :
    search.queryParts q o = spec.queryParts q o := by
  have hc : strings.TrimPrefix o.InChannel "#" = spec.removeOneLeading '#' o.InChannel :=
    TrimPrefix_single_eq_removeOneLeading '#' o.InChannel
  have hu : strings.TrimPrefix o.FromUser "@" = spec.removeOneLeading '@' o.FromUser :=
    TrimPrefix_single_eq_removeOneLeading '@' o.FromUser
  have step : ∀ (c : Prop) [Decidable c] (parts : List String) (x : String),
      (if c then parts ++ [x] else parts) = parts ++ spec.partWhen (decide c) x := by
    intro c _ parts x
    by_cases h : c <;> simp [spec.partWhen, h]
  have hb : ∀ a b : String, (a != b) = !decide (a = b) := by
    intro a b
    by_cases h : a = b <;> simp [h]
  simp only [search.queryParts, step, hc, hu]
  simp [spec.queryParts, hb]

theorem BuildQuery_some (q : String) (o : search.QueryOptions) :
    search.BuildQuery q (some o) = strings.Join (spec.queryParts q o) " " := by
  show strings.Join (search.queryParts q o) " " = _
  rw [queryParts_eq_spec]

/-- The list of parts is never empty: the base query is always appended. -/
theorem spec_queryParts_ne_nil (q : String) (o : search.QueryOptions) :
    spec.queryParts q o ≠ [] := by
  simp [spec.queryParts]

theorem Join_cons_of_ne_nil (a sep : String) (l : List String) (h : l ≠ []) :
    strings.Join (a :: l) sep = a ++ sep ++ strings.Join l sep := by
  cases l with
  | nil => exact (h rfl).elim
  | cons b t => exact Join_cons_cons a b t sep

theorem bne_eq_true_of_ne (a b : String) (h : a ≠ b) : (a != b) = true := by
  simp [h]

theorem inClass_pair_iff (a b c : Char) :
    regexp.inClass [(a, a), (b, b)] c = true ↔ (c = a ∨ c = b) := by
  have h1 := regexp.inClass_single_iff a c
  have h2 := regexp.inClass_single_iff b c
  simp only [regexp.inClass, List.any_cons, List.any_nil, Bool.or_false,
    Bool.or_eq_true] at h1 h2 ⊢
  rw [h1, h2]

theorem MatchString_userIDRegex_iff (id : String) :
    regexp.MatchString validate.userIDRegex id = true ↔ spec.isIDShape 'U' 'W' id := by
  unfold validate.userIDRegex spec.isIDShape
  rw [regexp.MatchString_idShape_iff]
  simp only [regexp.inClass_upperDigit_iff, inClass_pair_iff]

/-- The timestamp pattern matches exactly the texts `digits.digits`. -/
theorem MatchString_timestampRegex_iff (ts : String) :
    regexp.MatchString validate.timestampRegex ts = true ↔ spec.isTimestampShape ts := by
  rw [regexp.MatchString_iff]
  unfold validate.timestampRegex spec.isTimestampShape regexp.Regexp.lit
  constructor
  · rintro ⟨pre, mid, post, hs, hm⟩
    obtain ⟨hpre, h1⟩ := (regexp.matches_beginText_concat_iff _ _ _ _).mp hm
    obtain ⟨whole, rest, hmid, hw, h2⟩ := (regexp.matches_concat_iff _ _ _ _ _).mp h1
    obtain ⟨hwne, hwd⟩ := (regexp.matches_plus_charClass_iff _ _ _ _).mp hw
    obtain ⟨c, frac, hrest, hc, h3⟩ := (regexp.matches_charClass_concat_iff _ _ _ _ _).mp h2
    obtain ⟨hpost, h4⟩ := (regexp.matches_concat_endText_iff _ _ _ _).mp h3
    obtain ⟨hfne, hfd⟩ := (regexp.matches_plus_charClass_iff _ _ _ _).mp h4
    have hdot : c = '.' := (regexp.inClass_single_iff '.' c).mp hc
    subst hpre hmid hrest hpost hdot
    refine ⟨whole, frac, by simpa using hs, hwne, hfne, ?_, ?_⟩
    · intro x hx; exact (regexp.inClass_digit_iff x).mp (hwd x hx)
    · intro x hx; exact (regexp.inClass_digit_iff x).mp (hfd x hx)
  · rintro ⟨whole, frac, hs, hwne, hfne, hwd, hfd⟩
    refine ⟨[], whole ++ '.' :: frac, [], by simpa using hs, ?_⟩
    refine (regexp.matches_beginText_concat_iff _ _ _ _).mpr ⟨rfl, ?_⟩
    refine (regexp.matches_concat_iff _ _ _ _ _).mpr ⟨whole, '.' :: frac, rfl, ?_, ?_⟩
    · exact (regexp.matches_plus_charClass_iff _ _ _ _).mpr
        ⟨hwne, fun x hx => (regexp.inClass_digit_iff x).mpr (hwd x hx)⟩
    · refine (regexp.matches_charClass_concat_iff _ _ _ _ _).mpr
        ⟨'.', frac, rfl, (regexp.inClass_single_iff '.' '.').mpr rfl, ?_⟩
      refine (regexp.matches_concat_endText_iff _ _ _ _).mpr ⟨rfl, ?_⟩
      exact (regexp.matches_plus_charClass_iff _ _ _ _).mpr
        ⟨hfne, fun x hx => (regexp.inClass_digit_iff x).mpr (hfd x hx)⟩

theorem ChannelID_eq_none_iff (id : String) :
    validate.ChannelID id = none ↔ spec.isIDShape 'C' 'G' id := by
  unfold validate.ChannelID
  rw [← MatchString_channelIDRegex_iff]
  cases regexp.MatchString validate.channelIDRegex id <;> simp

theorem UserID_eq_none_iff (id : String) :
    validate.UserID id = none ↔ spec.isIDShape 'U' 'W' id := by
  unfold validate.UserID
  rw [← MatchString_userIDRegex_iff]
  cases regexp.MatchString validate.userIDRegex id <;> simp

theorem Timestamp_eq_none_iff (ts : String) :
    validate.Timestamp ts = none ↔ spec.isTimestampShape ts := by
  unfold validate.Timestamp
  rw [← MatchString_timestampRegex_iff]
  cases regexp.MatchString validate.timestampRegex ts <;> simp

/-! ## Lemmas on `runSend` -/

theorem sendCalls_append (a b : List messages.Event) :
    messages.sendCalls (a ++ b) = messages.sendCalls a ++ messages.sendCalls b := by
  induction a with
  | nil => rfl
  | cons e rest ih => cases e <;> simp [messages.sendCalls, ih]

theorem sendCalls_readText (w : messages.World) (text : String) (opts : messages.sendOptions) :
    messages.sendCalls (messages.readText w text opts).1 = [] := by
  unfold messages.readText
  by_cases h : text = "-"
  · simp only [h, if_true]
    cases opts.stdin with
    | some r => cases hr : r.err <;> simp [hr, messages.sendCalls]
    | none => cases hr : w.osStdin.err <;> simp [hr, messages.sendCalls]
  · simp [h, messages.sendCalls]

theorem sendCalls_resolveClient (w : messages.World) (c : Option client.Client) :
    messages.sendCalls (messages.resolveClient w c).1 = [] := by
  cases c <;> rfl

theorem sendCalls_deliver (w : messages.World) (cl : client.Client) (channel text : String)
    (opts : messages.sendOptions) (bl : messages.Blocks) :
    messages.sendCalls (messages.deliver w cl channel text opts bl).events =
      [⟨cl, channel, text, opts.threadTS, bl⟩] := by
  unfold messages.deliver
  cases w.SendMessage cl channel text opts.threadTS bl with
  | error e => rfl
  | ok msg => cases w.IsJSON <;> rfl

/-- When every step before the call succeeds, `runSend` is the call and what
follows it. -/
theorem runSend_reaches (w : messages.World) (channel text : String)
    (opts : messages.sendOptions) (c : Option client.Client)
    (ev1 ev2 : List messages.Event) (t0 : String) (cl : client.Client)
    (bl : messages.Blocks)
    (hch : validate.ChannelID channel = none)
    (hts : opts.threadTS = "" ∨ validate.Timestamp opts.threadTS = none)
    (hread : messages.readText w text opts = (ev1, .ok t0))
    (hne : w.unescapeShellChars t0 ≠ "")
    (hcl : messages.resolveClient w c = (ev2, .ok cl))
    (hbl : messages.chooseBlocks w opts (w.unescapeShellChars t0) = .ok bl) :
    messages.runSend w channel text opts c =
      ⟨ev1 ++ ev2 ++
          (messages.deliver w cl channel (w.unescapeShellChars t0) opts bl).events,
        (messages.deliver w cl channel (w.unescapeShellChars t0) opts bl).err⟩ := by
  have hts2 : (if opts.threadTS ≠ "" then validate.Timestamp opts.threadTS else none) = none := by
    rcases hts with h | h
    · simp [h]
    · simp [h]
  simp only [messages.runSend, hch, hts2, hread, hne, hcl, hbl, if_false]

/-- Every `SendMessage` call of `runSend` comes after all the earlier steps
succeeded, and its arguments are what those steps computed. -/
theorem sendCalls_runSend_inv (w : messages.World) (channel text : String)
    (opts : messages.sendOptions) (c : Option client.Client) (call : messages.SendCall)
    (h : call ∈ messages.sendCalls (messages.runSend w channel text opts c).events) :
    validate.ChannelID channel = none ∧
    (opts.threadTS = "" ∨ validate.Timestamp opts.threadTS = none) ∧
    ∃ ev1 t0 ev2 cl bl,
      messages.readText w text opts = (ev1, .ok t0) ∧
      w.unescapeShellChars t0 ≠ "" ∧
      messages.resolveClient w c = (ev2, .ok cl) ∧
      messages.chooseBlocks w opts (w.unescapeShellChars t0) = .ok bl ∧
      call = ⟨cl, channel, w.unescapeShellChars t0, opts.threadTS, bl⟩ := by
  cases hch : validate.ChannelID channel with
  | some e => simp [messages.runSend, hch, messages.sendCalls] at h
  | none =>
  cases hts : (if opts.threadTS ≠ "" then validate.Timestamp opts.threadTS else none) with
  | some e => simp [messages.runSend, hch, hts, messages.sendCalls] at h
  | none =>
  have hts2 : opts.threadTS = "" ∨ validate.Timestamp opts.threadTS = none := by
    by_cases h0 : opts.threadTS = ""
    · exact Or.inl h0
    · right; simpa [h0] using hts
  rcases hread : messages.readText w text opts with ⟨ev1, r1⟩
  have hs1 : messages.sendCalls ev1 = [] := by
    have := sendCalls_readText w text opts
    rw [hread] at this; exact this
  cases r1 with
  | error e => simp [messages.runSend, hch, hts, hread, hs1] at h
  | ok t0 =>
  by_cases hne : w.unescapeShellChars t0 = ""
  · simp [messages.runSend, hch, hts, hread, hne, hs1] at h
  rcases hcl : messages.resolveClient w c with ⟨ev2, r2⟩
  have hs2 : messages.sendCalls ev2 = [] := by
    have := sendCalls_resolveClient w c
    rw [hcl] at this; exact this
  cases r2 with
  | error e => simp [messages.runSend, hch, hts, hread, hne, hcl, sendCalls_append, hs1, hs2] at h
  | ok cl =>
  cases hbl : messages.chooseBlocks w opts (w.unescapeShellChars t0) with
  | error e =>
    simp [messages.runSend, hch, hts, hread, hne, hcl, hbl, sendCalls_append, hs1, hs2] at h
  | ok bl =>
    rw [runSend_reaches w channel text opts c ev1 ev2 t0 cl bl hch hts2 hread hne hcl hbl] at h
    simp only [sendCalls_append, hs1, hs2, sendCalls_deliver, List.nil_append,
      List.mem_singleton] at h
    exact ⟨rfl, hts2, ev1, t0, ev2, cl, bl, rfl, hne, rfl, hbl, h⟩

/-- The calls made when every step before the call succeeds: exactly one. -/
theorem sendCalls_runSend_reaches (w : messages.World) (channel text : String)
    (opts : messages.sendOptions) (c : Option client.Client)
    (ev1 ev2 : List messages.Event) (t0 : String) (cl : client.Client)
    (bl : messages.Blocks)
    (hch : validate.ChannelID channel = none)
    (hts : opts.threadTS = "" ∨ validate.Timestamp opts.threadTS = none)
    (hread : messages.readText w text opts = (ev1, .ok t0))
    (hne : w.unescapeShellChars t0 ≠ "")
    (hcl : messages.resolveClient w c = (ev2, .ok cl))
    (hbl : messages.chooseBlocks w opts (w.unescapeShellChars t0) = .ok bl) :
    messages.sendCalls (messages.runSend w channel text opts c).events =
      [⟨cl, channel, w.unescapeShellChars t0, opts.threadTS, bl⟩] := by
  rw [runSend_reaches w channel text opts c ev1 ev2 t0 cl bl hch hts hread hne hcl hbl]
  have hs1 : messages.sendCalls ev1 = [] := by
    have := sendCalls_readText w text opts
    rw [hread] at this; exact this
  have hs2 : messages.sendCalls ev2 = [] := by
    have := sendCalls_resolveClient w c
    rw [hcl] at this; exact this
  simp only [sendCalls_append, hs1, hs2, sendCalls_deliver, List.nil_append]

theorem readText_of_ne_dash (w : messages.World) (text : String) (opts : messages.sendOptions)
    (h : text ≠ "-") : messages.readText w text opts = ([], .ok text) := by
  simp [messages.readText, h]

theorem isDefaultBlocksFor_build (text : String) :
    spec.isDefaultBlocksFor text (some (messages.buildDefaultBlocks text)) := by
  refine ⟨_, rfl, ?_,
    .object [("type", .string "mrkdwn"), ("text", .string text)], ?_, ?_, ?_⟩ <;>
    simp [json.Value.get?, List.lookup]

theorem isDefaultBlocksFor_text_inj (a b : String)
    (h : spec.isDefaultBlocksFor a (some (messages.buildDefaultBlocks b))) : a = b := by
  obtain ⟨block, hb, -, textObj, ht, -, htext⟩ := h
  simp only [messages.buildDefaultBlocks, Option.some.injEq, List.cons.injEq, and_true] at hb
  subst hb
  simp [json.Value.get?, List.lookup] at ht
  subst ht
  simp [json.Value.get?, List.lookup] at htext
  exact htext.symm

theorem chooseBlocks_default (w : messages.World) (opts : messages.sendOptions) (text : String)
    (hb : opts.blocksJSON = "") (hs : opts.simple = false) :
    messages.chooseBlocks w opts text = .ok (some (w.buildDefaultBlocks text)) := by
  simp [messages.chooseBlocks, hb, hs]

theorem chooseBlocks_simple (w : messages.World) (opts : messages.sendOptions) (text : String)
    (hb : opts.blocksJSON = "") (hs : opts.simple = true) :
    messages.chooseBlocks w opts text = .ok none := by
  simp [messages.chooseBlocks, hb, hs]

theorem chooseBlocks_decoded (w : messages.World) (opts : messages.sendOptions) (text : String)
    (bl : messages.Blocks) (hne : opts.blocksJSON ≠ "")
    (hdec : w.jsonUnmarshal opts.blocksJSON = .ok bl) :
    messages.chooseBlocks w opts text = .ok bl := by
  simp [messages.chooseBlocks, hne, hdec]

theorem chooseBlocks_undecodable (w : messages.World) (opts : messages.sendOptions)
    (text : String) (e : errors.Error) (hne : opts.blocksJSON ≠ "")
    (hdec : w.jsonUnmarshal opts.blocksJSON = .error e) :
    messages.chooseBlocks w opts text = .error (.wrapError "invalid blocks JSON: %w" e) := by
  simp [messages.chooseBlocks, hne, hdec]

theorem indexFrom_prefix (sub rest : List Char) :
    strings.indexFrom sub (sub ++ rest) = true := by
  cases h : sub ++ rest with
  | nil =>
    have : sub = [] := (List.append_eq_nil.mp h).1
    simp [strings.indexFrom, this]
  | cons c t =>
    have hp : sub.isPrefixOf (c :: t) = true := by
      rw [← h]; exact List.isPrefixOf_iff_prefix.mpr (List.prefix_append _ _)
    simp [strings.indexFrom, hp]

/-- The text of an error wrapped by `fmt.Errorf("invalid blocks JSON: %w", e)`. -/
theorem text_invalid_blocks (sprintf : String → List fmt.Arg → String) (e : errors.Error) :
    (errors.Error.wrapError "invalid blocks JSON: %w" e).text sprintf =
      "invalid blocks JSON: " ++ e.text sprintf := by
  apply String.ext
  simp only [errors.Error.text, String.data_append]
  generalize (errors.Error.text sprintf e).data = m
  have h : errors.substW "invalid blocks JSON: %w".data m =
      "invalid blocks JSON: ".data ++ (m ++ []) := rfl
  rw [h, List.append_nil]

theorem join_sep_cons (sep : List Char) (a : List Char) (l : List String) :
    (l.foldl (fun acc x => acc ++ String.mk sep ++ x) (String.mk a)).data =
      a ++ (l.map (fun t => sep ++ t.data)).flatten := by
  induction l generalizing a with
  | nil => simp
  | cons x xs ih =>
    simp only [List.foldl_cons, List.map_cons, List.flatten_cons]
    have hx : String.mk a ++ String.mk sep ++ x = String.mk (a ++ sep ++ x.data) := by
      apply String.ext; simp [String.data_append]
    rw [hx, ih]
    simp

theorem Join_cons_data (a : String) (l : List String) (sep : String) :
    (strings.Join (a :: l) sep).data = a.data ++ (l.map (fun t => sep.data ++ t.data)).flatten := by
  have h : strings.Join (a :: l) sep = l.foldl (fun acc x => acc ++ sep ++ x) a := by
    cases l <;> rfl
  rw [h]
  exact join_sep_cons sep.data a.data l

theorem scanLoop_of_ne_nil (tokens : List String) (acc : List Char) (h : acc ≠ []) :
    messages.scanLoop tokens acc =
      acc ++ (tokens.map (fun t => ['\n'] ++ t.data)).flatten := by
  induction tokens generalizing acc with
  | nil => simp [messages.scanLoop]
  | cons t rest ih =>
    have hl : acc.length > 0 := List.length_pos.mpr h
    simp only [messages.scanLoop, hl, if_true]
    rw [ih _ (by simp [h])]
    simp

/-! ## Lemmas for the later claims -/

theorem head?_dropWhile_eq_ne (c : Char) (l : List Char) :
    (l.dropWhile (fun x => x == c)).head? ≠ some c := by
  induction l with
  | nil => simp
  | cons a t ih =>
    by_cases h : a = c
    · simpa [h] using ih
    · simp [h]

theorem getLast?_dropWhile_eq_ne (c : Char) (l : List Char) (h : l.getLast? ≠ some c) :
    (l.dropWhile (fun x => x == c)).getLast? ≠ some c := by
  induction l with
  | nil => simp
  | cons a t ih =>
    by_cases ha : a = c
    · subst ha
      simp only [List.dropWhile_cons, beq_self_eq_true, if_true]
      apply ih
      cases t with
      | nil => simp
      | cons b u => simpa [List.getLast?_cons_cons] using h
    · simpa [ha] using h

theorem getLast?_trimRightByte_ne (c : Char) (l : List Char) :
    (strings.trimRightByte l c).getLast? ≠ some c := by
  unfold strings.trimRightByte
  rw [List.getLast?_reverse]
  exact head?_dropWhile_eq_ne c _

theorem HasPrefix_single_eq_false (s : String) (c : Char) (h : s.data.head? ≠ some c) :
    strings.HasPrefix s ⟨[c]⟩ = false := by
  unfold strings.HasPrefix
  cases hs : s.data with
  | nil => simp
  | cons a t =>
    rw [hs] at h
    have : a ≠ c := by simpa using h
    simp [this]

theorem HasSuffix_single_eq_false (s : String) (c : Char) (h : s.data.getLast? ≠ some c) :
    strings.HasSuffix s ⟨[c]⟩ = false := by
  unfold strings.HasSuffix
  rcases List.eq_nil_or_concat s.data with hs | ⟨t, a, hs⟩
  · simp [hs]
  · rw [hs] at h ⊢
    have : a ≠ c := by simpa using h
    simp [this]

/-- Without a colon at either end, `Trim` with the cutset `:` changes nothing. -/
theorem Trim_colon_of_clean (s : String) (h1 : s.data.head? ≠ some ':')
    (h2 : s.data.getLast? ≠ some ':') : strings.Trim s ":" = s := by
  apply String.ext
  unfold strings.Trim
  by_cases he : s.data.isEmpty = true
  · simp [he]
  · have hd : (":" : String).data = [':'] := rfl
    simp only [he, hd, List.isEmpty_cons, Bool.or_self, Bool.false_eq_true, if_false]
    have : (':' : Char).toNat < 128 := by decide
    simp only [this, if_true]
    have hr := trimRightByte_append_replicate ':' 0 s.data h2
    have hl := trimLeftByte_replicate_append ':' 0 s.data h1
    simp only [List.replicate_zero, List.append_nil, List.nil_append] at hr hl
    rw [hr, hl]

/-- The result of `Trim` with the cutset `:` has no colon at either end. -/
theorem Trim_colon_clean (s : String) :
    (strings.Trim s ":").data.head? ≠ some ':' ∧
    (strings.Trim s ":").data.getLast? ≠ some ':' := by
  unfold strings.Trim
  by_cases he : s.data.isEmpty = true
  · have hnil : s.data = [] := List.isEmpty_iff.mp he
    simp [he, hnil]
  · have hd : (":" : String).data = [':'] := rfl
    simp only [he, hd, List.isEmpty_cons, Bool.or_self, Bool.false_eq_true, if_false]
    have : (':' : Char).toNat < 128 := by decide
    simp only [this, if_true]
    refine ⟨?_, ?_⟩
    · exact head?_dropWhile_eq_ne ':' _
    · exact getLast?_dropWhile_eq_ne ':' _ (getLast?_trimRightByte_ne ':' _)

theorem isOutput_readText (w : messages.World) (text : String) (opts : messages.sendOptions) :
    ∀ ev ∈ (messages.readText w text opts).1, ev.isOutput = false ∧ ev.isClientNew = false := by
  unfold messages.readText
  by_cases h : text = "-"
  · simp only [h, if_true]
    cases opts.stdin with
    | some r =>
      cases hr : r.err <;>
        simp [hr, messages.Event.isOutput, messages.Event.isClientNew]
    | none =>
      cases hr : w.osStdin.err <;>
        simp [hr, messages.Event.isOutput, messages.Event.isClientNew]
  · simp [h]

theorem isOutput_resolveClient (w : messages.World) (c : Option client.Client) :
    ∀ ev ∈ (messages.resolveClient w c).1, ev.isOutput = false := by
  cases c <;> simp [messages.resolveClient, messages.Event.isOutput]

theorem isClientNew_deliver (w : messages.World) (cl : client.Client) (channel text : String)
    (opts : messages.sendOptions) (bl : messages.Blocks) :
    ∀ ev ∈ (messages.deliver w cl channel text opts bl).events, ev.isClientNew = false := by
  unfold messages.deliver
  cases w.SendMessage cl channel text opts.threadTS bl with
  | error e => simp [messages.Event.isClientNew]
  | ok msg => cases w.IsJSON <;> simp [messages.Event.isClientNew]

/-- A `client.New()` call of `runSend` happens only with no client supplied and
after the validations and the text check have passed. -/
theorem clientNew_runSend_inv (w : messages.World) (channel text : String)
    (opts : messages.sendOptions) (c : Option client.Client)
    (h : ∃ ev ∈ (messages.runSend w channel text opts c).events, ev.isClientNew = true) :
    c = none ∧ validate.ChannelID channel = none ∧
    (opts.threadTS = "" ∨ validate.Timestamp opts.threadTS = none) ∧
    ∃ ev1 t0, messages.readText w text opts = (ev1, .ok t0) ∧
      w.unescapeShellChars t0 ≠ "" := by
  obtain ⟨ev, hev, hnew⟩ := h
  cases hch : validate.ChannelID channel with
  | some e => simp [messages.runSend, hch] at hev
  | none =>
  cases hts : (if opts.threadTS ≠ "" then validate.Timestamp opts.threadTS else none) with
  | some e => simp [messages.runSend, hch, hts] at hev
  | none =>
  have hts2 : opts.threadTS = "" ∨ validate.Timestamp opts.threadTS = none := by
    by_cases h0 : opts.threadTS = ""
    · exact Or.inl h0
    · right; simpa [h0] using hts
  rcases hread : messages.readText w text opts with ⟨ev1, r1⟩
  have hr1 : ∀ x ∈ ev1, x.isClientNew = false := by
    have := isOutput_readText w text opts
    rw [hread] at this
    exact fun x hx => (this x hx).2
  cases r1 with
  | error e =>
    simp only [messages.runSend, hch, hts, hread] at hev
    rw [hr1 ev hev] at hnew; cases hnew
  | ok t0 =>
  by_cases hne : w.unescapeShellChars t0 = ""
  · simp only [messages.runSend, hch, hts, hread, hne, if_true] at hev
    rw [hr1 ev hev] at hnew; cases hnew
  cases c with
  | none => exact ⟨rfl, rfl, hts2, ev1, t0, rfl, hne⟩
  | some cl =>
    exfalso
    cases hbl : messages.chooseBlocks w opts (w.unescapeShellChars t0) with
    | error e =>
      simp only [messages.runSend, hch, hts, hread, hne, if_false, messages.resolveClient,
        hbl, List.append_nil] at hev
      rw [hr1 ev hev] at hnew; cases hnew
    | ok bl =>
      rw [runSend_reaches w channel text opts (some cl) ev1 [] t0 cl bl hch hts2 hread hne
        rfl hbl] at hev
      simp only [List.append_nil, List.mem_append] at hev
      rcases hev with h1 | h2
      · rw [hr1 ev h1] at hnew; cases hnew
      · rw [isClientNew_deliver w cl channel _ opts bl ev h2] at hnew; cases hnew

/-- With no client supplied and `client.New()` failing, a run of `runSend` that
gets past the validations and the text check ends with that call and returns
its error. -/
theorem runSend_client_unavailable (w : messages.World) (channel text : String)
    (opts : messages.sendOptions) (e : errors.Error) (ev1 : List messages.Event)
    (t0 : String) (hnew : w.clientNew = .error e)
    (hch : validate.ChannelID channel = none)
    (hts : opts.threadTS = "" ∨ validate.Timestamp opts.threadTS = none)
    (hread : messages.readText w text opts = (ev1, .ok t0))
    (hne : w.unescapeShellChars t0 ≠ "") :
    messages.runSend w channel text opts none = ⟨ev1 ++ [.clientNew], some e⟩ := by
  have hts2 : (if opts.threadTS ≠ "" then validate.Timestamp opts.threadTS else none) = none := by
    rcases hts with h | h
    · simp [h]
    · simp [h]
  simp only [messages.runSend, hch, hts2, hread, hne, if_false, messages.resolveClient, hnew]

theorem sendCalls_runSend_client_unavailable (w : messages.World) (channel text : String)
    (opts : messages.sendOptions) (e : errors.Error) (hnew : w.clientNew = .error e) :
    messages.sendCalls (messages.runSend w channel text opts none).events = [] := by
  cases hcalls : messages.sendCalls (messages.runSend w channel text opts none).events with
  | nil => rfl
  | cons call rest =>
    have hmem : call ∈
        messages.sendCalls (messages.runSend w channel text opts none).events := by
      rw [hcalls]; exact List.mem_cons_self _ _
    obtain ⟨-, -, ev1, t0, ev2, cl, bl, -, -, hcl, -, -⟩ :=
      sendCalls_runSend_inv w channel text opts none call hmem
    simp [messages.resolveClient, hnew] at hcl

theorem paginate_pages {α : Type} (init : List (client.Page α)) (last : client.Page α)
    (extra : List (Except errors.Error (client.Page α)))
    (hinit : ∀ p ∈ init, p.nextCursor ≠ "") (hlast : last.nextCursor = "")
    (cursor : Option String) (acc : List α) (requests : List (Option String)) :
    client.paginate ((init ++ [last]).map Except.ok ++ extra) cursor acc requests =
      ⟨requests ++ cursor :: init.map (fun p => some p.nextCursor),
        some (.ok (acc ++ ((init ++ [last]).map (fun p => p.items)).flatten))⟩ := by
  induction init generalizing cursor acc requests with
  | nil => simp [client.paginate, hlast]
  | cons p rest ih =>
    have hp : p.nextCursor ≠ "" := hinit p (List.mem_cons_self _ _)
    have hrest : ∀ q ∈ rest, q.nextCursor ≠ "" :=
      fun q hq => hinit q (List.mem_cons_of_mem _ hq)
    have h := ih hrest (some p.nextCursor) (acc ++ p.items) (requests ++ [cursor])
    simp only [List.cons_append, List.map_cons, client.paginate, hp, if_false]
    simp only [List.append_eq]
    rw [h]
    simp

/-- With an answer read and no `--force`, the token is deleted exactly when the
answer, lower-cased and trimmed, is `y` or `yes`. -/
theorem runDeleteToken_answered (w : config.World) (opts : config.deleteTokenOptions)
    (text : String) (rest : List String) (hf : opts.force = false)
    (htok : (opts.stdin.getD w.osStdin).tokens = text :: rest) :
    config.deleteCalls (config.runDeleteToken w opts).events =
      if strings.TrimSpace (strings.ToLower text) = "y" ∨
          strings.TrimSpace (strings.ToLower text) = "yes" then 1 else 0 := by
  have htok2 : (match opts.stdin with
      | some r => r
      | none => w.osStdin).tokens = text :: rest := by
    cases hs : opts.stdin <;> simpa [hs] using htok
  by_cases hy : strings.TrimSpace (strings.ToLower text) = "y"
  · have hc : config.confirmDelete w opts =
        ([.println "About to delete the stored Slack API token.",
          .printf "Are you sure? [y/N]: ", .scan], false) := by
      simp [config.confirmDelete, hf, htok2, hy]
    simp only [config.runDeleteToken, hc, hy, true_or, if_true]
    cases w.DeleteAPIToken <;> cases w.IsSecureStorage <;> rfl
  · by_cases hyes : strings.TrimSpace (strings.ToLower text) = "yes"
    · have hc : config.confirmDelete w opts =
          ([.println "About to delete the stored Slack API token.",
            .printf "Are you sure? [y/N]: ", .scan], false) := by
        simp [config.confirmDelete, hf, htok2, hyes]
      simp only [config.runDeleteToken, hc, hyes, or_true, if_true]
      cases w.DeleteAPIToken <;> cases w.IsSecureStorage <;> rfl
    · have hc : config.confirmDelete w opts =
          ([.println "About to delete the stored Slack API token.",
            .printf "Are you sure? [y/N]: ", .scan, .println "Cancelled."], true) := by
        simp [config.confirmDelete, hf, htok2, hy, hyes]
      simp only [config.runDeleteToken, hc, hy, hyes, or_self, if_false]
      rfl

/-- Default formatting in `runSend`, for any unescaping helper: with a text
argument other than `-`, `blocksJSON` empty and `simple` unset, every
`SendMessage` call carries exactly one block, of type `section` with a `mrkdwn`
text object whose text is what `unescapeShellChars` returned for the input,
the same text the call carries; with a valid channel, a thread timestamp that
is empty or valid, a non-empty unescaped text and a supplied client the call
is made; and where the helper returns the text unchanged the block text is
the input itself. -/
theorem runSend_default_blocks (w : messages.World) (channel text : String)
    (opts : messages.sendOptions) (c : Option client.Client)
    (hb : opts.blocksJSON = "") (hs : opts.simple = false) (hdash : text ≠ "-")
    (hbuild : w.buildDefaultBlocks = messages.buildDefaultBlocks) :
    (∀ call ∈ messages.sendCalls (messages.runSend w channel text opts c).events,
      call.text = w.unescapeShellChars text ∧
      spec.isDefaultBlocksFor (w.unescapeShellChars text) call.blocks) ∧
    (∀ cl, validate.ChannelID channel = none →
      (opts.threadTS = "" ∨ validate.Timestamp opts.threadTS = none) →
      w.unescapeShellChars text ≠ "" → c = some cl →
      messages.sendCalls (messages.runSend w channel text opts c).events =
        [⟨cl, channel, w.unescapeShellChars text, opts.threadTS,
          some (messages.buildDefaultBlocks (w.unescapeShellChars text))⟩]) ∧
    (w.unescapeShellChars text = text →
      ∀ call ∈ messages.sendCalls (messages.runSend w channel text opts c).events,
        spec.isDefaultBlocksFor text call.blocks) := by
  have hread := readText_of_ne_dash w text opts hdash
  have safety : ∀ call ∈ messages.sendCalls (messages.runSend w channel text opts c).events,
      call.text = w.unescapeShellChars text ∧
      spec.isDefaultBlocksFor (w.unescapeShellChars text) call.blocks := by
    intro call hcall
    obtain ⟨-, -, ev1, t0, ev2, cl, bl, hr, -, -, hbl, rfl⟩ :=
      sendCalls_runSend_inv w channel text opts c call hcall
    rw [hread] at hr
    simp only [Prod.mk.injEq, Except.ok.injEq] at hr
    obtain ⟨-, rfl⟩ := hr
    rw [chooseBlocks_default w opts _ hb hs, hbuild] at hbl
    simp only [Except.ok.injEq] at hbl
    subst hbl
    exact ⟨rfl, isDefaultBlocksFor_build _⟩
  refine ⟨safety, ?_, ?_⟩
  · intro cl hch hts hne hc
    subst hc
    have hbl := chooseBlocks_default w opts (w.unescapeShellChars text) hb hs
    rw [hbuild] at hbl
    exact sendCalls_runSend_reaches w channel text opts (some cl) [] [] text cl _ hch hts hread
      hne rfl hbl
  · intro hid call hcall
    have := (safety call hcall).2
    rwa [hid] at this

/-! ## Claims -/

/-- C1: for every reaction name `n` that neither starts nor ends with a colon
(interior colons allowed, `n` may be empty) and all `i`, `j`, `Emoji` applied
to `i` colons, then `n`, then `j` colons returns exactly `n`. -/
theorem Emoji_strips_surrounding_colons (n : String) (i j : Nat)
    (hstart : strings.HasPrefix n ":" = false)
    (hend : strings.HasSuffix n ":" = false) :
    validate.Emoji (colons i ++ n ++ colons j) = n := by
  have h1 := HasPrefix_single_false n ':' hstart
  have h2 := HasSuffix_single_false n ':' hend
  apply String.ext
  unfold validate.Emoji strings.Trim
  by_cases hn : n.data = []
  · by_cases he : (colons i ++ n ++ colons j).data.isEmpty = true
    · simp only [he, Bool.true_or, if_true]
      rw [hn]; simpa using he
    · have hd : (":" : String).data = [':'] := rfl
      simp only [he, hd, List.isEmpty_cons, Bool.or_self, Bool.false_eq_true, if_false]
      have : (':' : Char).toNat < 128 := by decide
      simp only [this, if_true]
      simp only [String.data_append, colons, hn, List.append_nil]
      rw [← List.replicate_add]
      have hr := trimRightByte_append_replicate ':' (i + j) [] (by simp)
      rw [List.nil_append] at hr
      rw [hr]
      rfl
  · have he : (colons i ++ n ++ colons j).data.isEmpty = false := by
      simp [String.data_append, hn]
    have hd : (":" : String).data = [':'] := rfl
    simp only [he, hd, List.isEmpty_cons, Bool.or_self, Bool.false_eq_true, if_false]
    have : (':' : Char).toNat < 128 := by decide
    simp only [this, if_true]
    simp only [String.data_append, colons]
    rw [trimRightByte_append_replicate, trimLeftByte_replicate_append _ _ _ h1]
    rw [List.getLast?_append_of_ne_nil _ hn]
    exact h2

/-- C1 (the four inputs named by the claim): `"thumbsup"`, `":thumbsup:"`,
`":thumbsup"` and `"thumbsup:"` all normalize to `"thumbsup"`. -/
theorem Emoji_strips_surrounding_colons_witness :
    validate.Emoji "thumbsup" = "thumbsup" ∧
    validate.Emoji ":thumbsup:" = "thumbsup" ∧
    validate.Emoji ":thumbsup" = "thumbsup" ∧
    validate.Emoji "thumbsup:" = "thumbsup" :=
  ⟨Emoji_strips_surrounding_colons "thumbsup" 0 0 (by decide) (by decide),
   Emoji_strips_surrounding_colons "thumbsup" 1 1 (by decide) (by decide),
   Emoji_strips_surrounding_colons "thumbsup" 1 0 (by decide) (by decide),
   Emoji_strips_surrounding_colons "thumbsup" 0 1 (by decide) (by decide)⟩

/-- C2: for every base query and every non-nil `QueryOptions`, `BuildQuery`
returns the single-space join of the parts the claim lists, in that order,
each present only when its condition holds, the base query always last. -/
theorem BuildQuery_eq_join_of_parts (q : String) (o : search.QueryOptions) :
    search.BuildQuery q (some o) = " ".intercalate (spec.queryParts q o) := by
  rw [BuildQuery_some, Join_eq_intercalate]

/-- C3: with nil options, or with every option at its zero value, the base
query comes back unchanged: no modifier and no whitespace is added. -/
theorem BuildQuery_nil_or_zero (q : String) :
    search.BuildQuery q none = q ∧ search.BuildQuery q (some {}) = q :=
  ⟨rfl, rfl⟩

/-- C4: scope `"all"` gives the same query as the empty scope, and every other
non-empty scope `s` gives `"is:" ++ s ++ " "` followed by the query for the
empty scope, all other options being equal. -/
theorem BuildQuery_scope (q : String) (o : search.QueryOptions) (s : String)
    (hne : s ≠ "") (hall : s ≠ "all") :
    search.BuildQuery q (some { o with Scope := "all" }) =
        search.BuildQuery q (some { o with Scope := "" }) ∧
    search.BuildQuery q (some { o with Scope := s }) =
        "is:" ++ s ++ " " ++ search.BuildQuery q (some { o with Scope := "" }) := by
  have h0 : ∀ t : String, spec.queryParts q { o with Scope := t } =
      spec.partWhen (t != "" && t != "all") ("is:" ++ t) ++
        spec.queryParts q { o with Scope := "" } := by
    intro t
    simp [spec.queryParts, spec.partWhen]
  refine ⟨?_, ?_⟩
  · rw [BuildQuery_some, BuildQuery_some, h0 "all"]
    simp [spec.partWhen]
  · rw [BuildQuery_some, BuildQuery_some, h0 s]
    simp only [bne_eq_true_of_ne _ _ hne, bne_eq_true_of_ne _ _ hall, Bool.and_self,
      spec.partWhen, if_true, List.singleton_append]
    exact Join_cons_of_ne_nil _ _ _ (spec_queryParts_ne_nil _ _)

/-- C4 at the scope `"public"` of the repository's tests. -/
theorem BuildQuery_scope_witness :
    search.BuildQuery "test query" (some { Scope := "all" }) =
        search.BuildQuery "test query" (some { Scope := "" }) ∧
    search.BuildQuery "test query" (some { Scope := "public" }) =
        "is:public" ++ " " ++ search.BuildQuery "test query" (some { Scope := "" }) :=
  BuildQuery_scope "test query" {} "public" (by decide) (by decide)

/-- C5: for a non-empty channel name `c` that does not begin with `#`,
`InChannel = c` and `InChannel = "#" ++ c` give the same query, `"in:#" ++ c`
is one of its parts, and the query text contains it. -/
theorem BuildQuery_inChannel (q : String) (o : search.QueryOptions) (c : String)
    (hne : c ≠ "") (hhash : strings.HasPrefix c "#" = false) :
    search.BuildQuery q (some { o with InChannel := c }) =
        search.BuildQuery q (some { o with InChannel := "#" ++ c }) ∧
    "in:#" ++ c ∈ search.queryParts q { o with InChannel := c } ∧
    ∃ pre post : String,
      search.BuildQuery q (some { o with InChannel := c }) = pre ++ ("in:#" ++ c) ++ post := by
  have h1 : strings.TrimPrefix c "#" = c := TrimPrefix_of_not_HasPrefix _ _ hhash
  have h2 : strings.TrimPrefix ("#" ++ c) "#" = c := TrimPrefix_single_append '#' c
  have h3 : "#" ++ c ≠ "" := ne_empty_of_single_append '#' c
  have hparts : search.queryParts q { o with InChannel := "#" ++ c } =
      search.queryParts q { o with InChannel := c } := by
    simp only [search.queryParts, h1, h2, ne_eq, h3, hne, not_false_eq_true, if_true]
  have hmem : "in:#" ++ c ∈ search.queryParts q { o with InChannel := c } := by
    rw [queryParts_eq_spec]
    have hr : spec.removeOneLeading '#' c = c := by
      rw [← TrimPrefix_single_eq_removeOneLeading]; exact h1
    simp [spec.queryParts, spec.partWhen, hne, hr]
  refine ⟨?_, hmem, ?_⟩
  · show strings.Join _ " " = strings.Join _ " "
    rw [hparts]
  · exact Join_mem_infix " " _ _ hmem

/-- C5 at the channel `general` of the repository's tests. -/
theorem BuildQuery_inChannel_witness :
    search.BuildQuery "test query" (some { InChannel := "general" }) =
        search.BuildQuery "test query" (some { InChannel := "#" ++ "general" }) ∧
    "in:#" ++ "general" ∈ search.queryParts "test query" { InChannel := "general" } ∧
    ∃ pre post : String,
      search.BuildQuery "test query" (some { InChannel := "general" }) =
        pre ++ ("in:#" ++ "general") ++ post :=
  BuildQuery_inChannel "test query" {} "general" (by decide) (by decide)

/-- C6: for a non-empty user handle `u` that does not begin with `@`,
`FromUser = u` and `FromUser = "@" ++ u` give the same query, `"from:@" ++ u`
is one of its parts, and the query text contains it. -/
theorem BuildQuery_fromUser (q : String) (o : search.QueryOptions) (u : String)
    (hne : u ≠ "") (hat : strings.HasPrefix u "@" = false) :
    search.BuildQuery q (some { o with FromUser := u }) =
        search.BuildQuery q (some { o with FromUser := "@" ++ u }) ∧
    "from:@" ++ u ∈ search.queryParts q { o with FromUser := u } ∧
    ∃ pre post : String,
      search.BuildQuery q (some { o with FromUser := u }) = pre ++ ("from:@" ++ u) ++ post := by
  have h1 : strings.TrimPrefix u "@" = u := TrimPrefix_of_not_HasPrefix _ _ hat
  have h2 : strings.TrimPrefix ("@" ++ u) "@" = u := TrimPrefix_single_append '@' u
  have h3 : "@" ++ u ≠ "" := ne_empty_of_single_append '@' u
  have hparts : search.queryParts q { o with FromUser := "@" ++ u } =
      search.queryParts q { o with FromUser := u } := by
    simp only [search.queryParts, h1, h2, ne_eq, h3, hne, not_false_eq_true, if_true]
  have hmem : "from:@" ++ u ∈ search.queryParts q { o with FromUser := u } := by
    rw [queryParts_eq_spec]
    have hr : spec.removeOneLeading '@' u = u := by
      rw [← TrimPrefix_single_eq_removeOneLeading]; exact h1
    simp [spec.queryParts, spec.partWhen, hne, hr]
  refine ⟨?_, hmem, ?_⟩
  · show strings.Join _ " " = strings.Join _ " "
    rw [hparts]
  · exact Join_mem_infix " " _ _ hmem

/-- C6 at the user `alice` of the repository's tests. -/
theorem BuildQuery_fromUser_witness :
    search.BuildQuery "test query" (some { FromUser := "alice" }) =
        search.BuildQuery "test query" (some { FromUser := "@" ++ "alice" }) ∧
    "from:@" ++ "alice" ∈ search.queryParts "test query" { FromUser := "alice" } ∧
    ∃ pre post : String,
      search.BuildQuery "test query" (some { FromUser := "alice" }) =
        pre ++ ("from:@" ++ "alice") ++ post :=
  BuildQuery_fromUser "test query" {} "alice" (by decide) (by decide)

/-- C7: `ValidateScope s` returns nil exactly when `s` is empty or one of
`all`, `public`, `private`, `dm`, `mpim`, compared case-sensitively and
without trimming; every other string gets an error. -/
theorem ValidateScope_nil_iff (s : String) :
    (search.ValidateScope s = none ↔
      s = "" ∨ s = "all" ∨ s = "public" ∨ s = "private" ∨ s = "dm" ∨ s = "mpim") ∧
    ((search.ValidateScope s).isSome = true ↔
      ¬(s = "" ∨ s = "all" ∨ s = "public" ∨ s = "private" ∨ s = "dm" ∨ s = "mpim")) ∧
    (search.ValidateScope "All").isSome = true ∧
    (search.ValidateScope " all").isSome = true ∧
    (search.ValidateScope "dm ").isSome = true := by
  have key : search.ValidateScope s = none ↔
      s = "" ∨ s = "all" ∨ s = "public" ∨ s = "private" ∨ s = "dm" ∨ s = "mpim" := by
    unfold search.ValidateScope
    by_cases h0 : s = ""
    · simp [h0]
    · simp only [h0, if_false, search.ValidScopes, search.scopeListed, false_or]
      by_cases h1 : s = "all"
      · simp [h1]
      by_cases h2 : s = "public"
      · simp [h2]
      by_cases h3 : s = "private"
      · simp [h3]
      by_cases h4 : s = "dm"
      · simp [h4]
      by_cases h5 : s = "mpim"
      · simp [h5]
      simp [h1, h2, h3, h4, h5]
  refine ⟨key, ?_, by decide, by decide, by decide⟩
  rw [← key]
  cases search.ValidateScope s <;> simp

/-- C8: `ValidateDate d` returns nil exactly when `d` is empty or has the shape
`YYYY-MM-DD` (ten runes: four ASCII digits, a dash, two ASCII digits, a dash,
two ASCII digits); every other string gets an error. -/
theorem ValidateDate_nil_iff (d : String) :
    (search.ValidateDate d = none ↔ d = "" ∨ spec.isDateShape d) ∧
    ((search.ValidateDate d).isSome = true ↔ ¬(d = "" ∨ spec.isDateShape d)) ∧
    (search.ValidateDate "20250115").isSome = true ∧
    (search.ValidateDate "2025/01/15").isSome = true ∧
    (search.ValidateDate "2025-01").isSome = true ∧
    (search.ValidateDate "2025-01-15-01").isSome = true := by
  have key : search.ValidateDate d = none ↔ d = "" ∨ spec.isDateShape d := by
    unfold search.ValidateDate
    by_cases h0 : d = ""
    · simp [h0]
    · simp only [h0, if_false, false_or, ← MatchString_datePattern_iff]
      cases regexp.MatchString search.datePattern d <;> simp
  refine ⟨key, ?_, by decide, by decide, by decide, by decide⟩
  rw [← key]
  cases search.ValidateDate d <;> simp

/-- C9: `ValidateQueryOptions` returns nil exactly when the options are nil or
the scope and both dates validate; the other fields never matter, and neither
does the order of the two dates. -/
theorem ValidateQueryOptions_nil_iff (o : search.QueryOptions)
    (ch usr ft : String) (l r p : Bool) :
    search.ValidateQueryOptions none = none ∧
    (search.ValidateQueryOptions (some o) = none ↔
      search.ValidateScope o.Scope = none ∧ search.ValidateDate o.After = none ∧
        search.ValidateDate o.Before = none) ∧
    search.ValidateQueryOptions
        (some { o with
                InChannel := ch, FromUser := usr, FileType := ft,
                HasLink := l, HasReaction := r, HasPin := p }) =
      search.ValidateQueryOptions (some o) ∧
    search.ValidateQueryOptions (some { After := "2025-12-31", Before := "2025-01-01" }) =
      none := by
  refine ⟨rfl, ?_, rfl, by decide⟩
  cases h1 : search.ValidateScope o.Scope <;> cases h2 : search.ValidateDate o.After <;>
    cases h3 : search.ValidateDate o.Before <;>
    simp [search.ValidateQueryOptions, h1, h2, h3]

/-- C10: `ChannelID id` returns nil exactly when `id` is `C` or `G` followed by
one or more runes that are each an ASCII uppercase letter or digit; the empty
string, a bare `C` or `G`, lowercase ids and other prefixes are rejected. -/
theorem ChannelID_nil_iff (id : String) :
    (validate.ChannelID id = none ↔ spec.isIDShape 'C' 'G' id) ∧
    ((validate.ChannelID id).isSome = true ↔ ¬spec.isIDShape 'C' 'G' id) ∧
    (validate.ChannelID "").isSome = true ∧
    (validate.ChannelID "C").isSome = true ∧
    (validate.ChannelID "G").isSome = true ∧
    (validate.ChannelID "c01234abcde").isSome = true ∧
    (validate.ChannelID "X01234ABCDE").isSome = true ∧
    (validate.ChannelID "U01234ABCDE").isSome = true := by
  have key : validate.ChannelID id = none ↔ spec.isIDShape 'C' 'G' id := by
    unfold validate.ChannelID
    rw [← MatchString_channelIDRegex_iff]
    cases regexp.MatchString validate.channelIDRegex id <;> simp
  refine ⟨key, ?_, by decide, by decide, by decide, by decide, by decide, by decide⟩
  rw [← key]
  cases validate.ChannelID id <;> simp

/-- C11: `UserID id` returns nil exactly when `id` is `U` or `W` followed by
one or more runes that are each an ASCII uppercase letter or digit; the empty
string, lowercase ids and other prefixes are rejected. -/
theorem UserID_nil_iff (id : String) :
    (validate.UserID id = none ↔ spec.isIDShape 'U' 'W' id) ∧
    ((validate.UserID id).isSome = true ↔ ¬spec.isIDShape 'U' 'W' id) ∧
    (validate.UserID "").isSome = true ∧
    (validate.UserID "U").isSome = true ∧
    (validate.UserID "u01234abcde").isSome = true ∧
    (validate.UserID "X01234ABCDE").isSome = true ∧
    (validate.UserID "C01234ABCDE").isSome = true := by
  refine ⟨UserID_eq_none_iff id, ?_, by decide, by decide, by decide, by decide, by decide⟩
  rw [← UserID_eq_none_iff]
  cases validate.UserID id <;> simp

/-- C12: `Timestamp ts` returns nil exactly when `ts` is one or more ASCII
digits, a single dot, and one or more ASCII digits, with nothing before or
after; no dot, an empty integer part or an empty fractional part is rejected. -/
theorem Timestamp_nil_iff (ts : String) :
    (validate.Timestamp ts = none ↔ spec.isTimestampShape ts) ∧
    ((validate.Timestamp ts).isSome = true ↔ ¬spec.isTimestampShape ts) ∧
    (validate.Timestamp "1234567890").isSome = true ∧
    (validate.Timestamp ".123").isSome = true ∧
    (validate.Timestamp "123.").isSome = true ∧
    (validate.Timestamp "").isSome = true ∧
    (validate.Timestamp "1.2.3").isSome = true ∧
    (validate.Timestamp " 1.2").isSome = true := by
  refine ⟨Timestamp_eq_none_iff ts, ?_, by decide, by decide, by decide, by decide,
    by decide, by decide⟩
  rw [← Timestamp_eq_none_iff]
  cases validate.Timestamp ts <;> simp

/-- C13: `Limit limit` returns nil exactly when `1 ≤ limit ≤ 1000`; zero,
negative values and values above 1000 get an error. -/
theorem Limit_nil_iff (limit : Int) :
    (validate.Limit limit = none ↔ 1 ≤ limit ∧ limit ≤ 1000) ∧
    ((validate.Limit limit).isSome = true ↔ (limit ≤ 0 ∨ 1000 < limit)) ∧
    validate.Limit 1 = none ∧ validate.Limit 1000 = none ∧
    (validate.Limit 0).isSome = true ∧ (validate.Limit (-1)).isSome = true ∧
    (validate.Limit 1001).isSome = true := by
  have key : (validate.Limit limit = none ↔ 1 ≤ limit ∧ limit ≤ 1000) ∧
      ((validate.Limit limit).isSome = true ↔ (limit ≤ 0 ∨ 1000 < limit)) := by
    unfold validate.Limit
    by_cases h1 : limit < 1
    · have hl : ¬(1 ≤ limit ∧ limit ≤ 1000) := by omega
      have hr : limit ≤ 0 ∨ 1000 < limit := by omega
      simp [h1, hl, hr]
    · by_cases h2 : limit > 1000
      · have hl : ¬(1 ≤ limit ∧ limit ≤ 1000) := by omega
        have hr : limit ≤ 0 ∨ 1000 < limit := by omega
        simp [h1, h2, hl, hr]
      · have hl : 1 ≤ limit ∧ limit ≤ 1000 := by omega
        have hr : ¬(limit ≤ 0 ∨ 1000 < limit) := by omega
        simp [h1, h2, hl, hr]
        omega
  exact ⟨key.1, key.2, by decide, by decide, by decide, by decide, by decide⟩

/-- C14: no string is accepted both as a channel ID and as a user ID: every
valid user ID is rejected by `ChannelID` and every valid channel ID by
`UserID`. -/
theorem ChannelID_UserID_disjoint (s : String) :
    ¬(validate.ChannelID s = none ∧ validate.UserID s = none) ∧
    ((validate.ChannelID s).isSome = true ∨ (validate.UserID s).isSome = true) := by
  have key : ¬(validate.ChannelID s = none ∧ validate.UserID s = none) := by
    rintro ⟨hc, hu⟩
    obtain ⟨c, tl, hs, hc1, -, -⟩ := (ChannelID_eq_none_iff s).mp hc
    obtain ⟨u, tl2, hs2, hu1, -, -⟩ := (UserID_eq_none_iff s).mp hu
    rw [hs] at hs2
    simp only [List.cons.injEq] at hs2
    obtain ⟨rfl, -⟩ := hs2
    rcases hc1 with rfl | rfl <;> rcases hu1 with h | h <;> exact absurd h (by decide)
  refine ⟨key, ?_⟩
  cases hc : validate.ChannelID s <;> cases hu : validate.UserID s <;> simp
  exact key ⟨hc, hu⟩

/-- C16: whenever `blocksJSON` is non-empty and decodes as an array, every
`SendMessage` call of `runSend` carries exactly the decoded array, whatever
`simple` says; with a valid channel, a thread timestamp that is empty or valid,
a text other than `-` that is non-empty after unescaping and a supplied client
the call is made. -/
theorem runSend_explicit_blocks (w : messages.World) (channel text : String)
    (opts : messages.sendOptions) (c : Option client.Client) (items : List json.Value)
    (hne : opts.blocksJSON ≠ "")
    (hdec : w.jsonUnmarshal opts.blocksJSON = .ok (some items)) :
    (∀ call ∈ messages.sendCalls (messages.runSend w channel text opts c).events,
      call.blocks = some items) ∧
    (∀ cl, validate.ChannelID channel = none →
      (opts.threadTS = "" ∨ validate.Timestamp opts.threadTS = none) →
      text ≠ "-" → w.unescapeShellChars text ≠ "" → c = some cl →
      messages.sendCalls (messages.runSend w channel text opts c).events =
        [⟨cl, channel, w.unescapeShellChars text, opts.threadTS, some items⟩]) := by
  refine ⟨?_, ?_⟩
  · intro call hcall
    obtain ⟨-, -, ev1, t0, ev2, cl, bl, -, -, -, hbl, rfl⟩ :=
      sendCalls_runSend_inv w channel text opts c call hcall
    rw [chooseBlocks_decoded w opts _ _ hne hdec] at hbl
    simp only [Except.ok.injEq] at hbl
    exact hbl.symm
  · intro cl hch hts hdash htext hc
    subst hc
    exact sendCalls_runSend_reaches w channel text opts (some cl) [] [] text cl _ hch hts
      (readText_of_ne_dash w text opts hdash) htext rfl
      (chooseBlocks_decoded w opts _ _ hne hdec)

/-- C16 on the run of `TestRunSend_WithBlocks`. -/
theorem runSend_explicit_blocks_witness :
    (∀ call ∈ messages.sendCalls
        (messages.runSend messages.exampleWorld "C123" "Hello"
          { blocksJSON := messages.testBlocksJSON }
          (some ⟨"http://localhost", "test-token"⟩)).events,
      call.blocks = some (messages.buildDefaultBlocks "Hello")) ∧
    messages.sendCalls
        (messages.runSend messages.exampleWorld "C123" "Hello"
          { blocksJSON := messages.testBlocksJSON }
          (some ⟨"http://localhost", "test-token"⟩)).events =
      [⟨⟨"http://localhost", "test-token"⟩, "C123", "Hello", "",
        some (messages.buildDefaultBlocks "Hello")⟩] :=
  ⟨(runSend_explicit_blocks messages.exampleWorld "C123" "Hello"
      { blocksJSON := messages.testBlocksJSON } (some ⟨"http://localhost", "test-token"⟩)
      (messages.buildDefaultBlocks "Hello") (by decide) rfl).1,
   (runSend_explicit_blocks messages.exampleWorld "C123" "Hello"
      { blocksJSON := messages.testBlocksJSON } (some ⟨"http://localhost", "test-token"⟩)
      (messages.buildDefaultBlocks "Hello") (by decide) rfl).2
      ⟨"http://localhost", "test-token"⟩ (by decide) (Or.inl rfl) (by decide) (by decide) rfl⟩

/-- C17, as stated, fails: with `simple` set and the blocks document of
`TestRunSend_WithBlocks` supplied, `SendMessage` is handed the decoded block,
not a nil list. -/
theorem runSend_simple_with_blocks_not_nil :
    messages.sendCalls
        (messages.runSend messages.exampleWorld "C123" "Hello"
          { blocksJSON := messages.testBlocksJSON, simple := true }
          (some ⟨"http://localhost", "test-token"⟩)).events =
      [⟨⟨"http://localhost", "test-token"⟩, "C123", "Hello", "",
        some (messages.buildDefaultBlocks "Hello")⟩] ∧
    ¬(∀ call ∈ messages.sendCalls
        (messages.runSend messages.exampleWorld "C123" "Hello"
          { blocksJSON := messages.testBlocksJSON, simple := true }
          (some ⟨"http://localhost", "test-token"⟩)).events,
      call.blocks = none) := by
  have hcalls : messages.sendCalls
      (messages.runSend messages.exampleWorld "C123" "Hello"
        { blocksJSON := messages.testBlocksJSON, simple := true }
        (some ⟨"http://localhost", "test-token"⟩)).events =
      [⟨⟨"http://localhost", "test-token"⟩, "C123", "Hello", "",
        some (messages.buildDefaultBlocks "Hello")⟩] := rfl
  refine ⟨hcalls, ?_⟩
  intro H
  have h1 := H _ (by rw [hcalls]; exact List.mem_singleton.mpr rfl)
  cases h1

/-- C17, amended: whenever `simple` is set and `blocksJSON` is empty, every
`SendMessage` call of `runSend` carries the nil blocks list; with a valid
channel, a thread timestamp that is empty or valid, a text other than `-` that
is non-empty after unescaping and a supplied client the call is made. -/
theorem runSend_simple_blocks_nil (w : messages.World) (channel text : String)
    (opts : messages.sendOptions) (c : Option client.Client)
    (hs : opts.simple = true) (hb : opts.blocksJSON = "") :
    (∀ call ∈ messages.sendCalls (messages.runSend w channel text opts c).events,
      call.blocks = none) ∧
    (∀ cl, validate.ChannelID channel = none →
      (opts.threadTS = "" ∨ validate.Timestamp opts.threadTS = none) →
      text ≠ "-" → w.unescapeShellChars text ≠ "" → c = some cl →
      messages.sendCalls (messages.runSend w channel text opts c).events =
        [⟨cl, channel, w.unescapeShellChars text, opts.threadTS, none⟩]) := by
  refine ⟨?_, ?_⟩
  · intro call hcall
    obtain ⟨-, -, ev1, t0, ev2, cl, bl, -, -, -, hbl, rfl⟩ :=
      sendCalls_runSend_inv w channel text opts c call hcall
    rw [chooseBlocks_simple w opts _ hb hs] at hbl
    simp only [Except.ok.injEq] at hbl
    exact hbl.symm
  · intro cl hch hts hdash htext hc
    subst hc
    exact sendCalls_runSend_reaches w channel text opts (some cl) [] [] text cl _ hch hts
      (readText_of_ne_dash w text opts hdash) htext rfl (chooseBlocks_simple w opts _ hb hs)

/-- C17, amended, on the run of `TestRunSend_Success`. -/
theorem runSend_simple_blocks_nil_witness :
    (∀ call ∈ messages.sendCalls
        (messages.runSend messages.exampleWorld "C123" "Hello World" { simple := true }
          (some ⟨"http://localhost", "test-token"⟩)).events,
      call.blocks = none) ∧
    messages.sendCalls
        (messages.runSend messages.exampleWorld "C123" "Hello World" { simple := true }
          (some ⟨"http://localhost", "test-token"⟩)).events =
      [⟨⟨"http://localhost", "test-token"⟩, "C123", "Hello World", "", none⟩] :=
  ⟨(runSend_simple_blocks_nil messages.exampleWorld "C123" "Hello World" { simple := true }
      (some ⟨"http://localhost", "test-token"⟩) rfl rfl).1,
   (runSend_simple_blocks_nil messages.exampleWorld "C123" "Hello World" { simple := true }
      (some ⟨"http://localhost", "test-token"⟩) rfl rfl).2
      ⟨"http://localhost", "test-token"⟩ (by decide) (Or.inl rfl) (by decide) (by decide) rfl⟩

/-- C18, as stated, fails: with a valid channel, a non-empty text and
undecodable blocks, but no client supplied and no stored credential,
`runSend` returns the error of `client.New()`, whose text does not mention
the blocks; the same happens with a malformed thread timestamp, where the
validator's error is returned. -/
theorem runSend_invalid_blocks_other_error :
    (messages.runSend messages.exampleWorld "C123" "Hello"
        { blocksJSON := "not valid json" } none).err =
      some (.other "no API token configured") ∧
    (∀ sprintf, strings.Contains
        ((errors.Error.other "no API token configured").text sprintf)
        "invalid blocks JSON" = false) ∧
    (messages.runSend messages.exampleWorld "C123" "Hello"
        { blocksJSON := "not valid json", threadTS := "bad" }
        (some ⟨"http://localhost", "test-token"⟩)).err =
      some (.plain (fmt.Errorf "invalid timestamp %q: must be format 1234567890.123456"
        [.str "bad"])) ∧
    ¬(∃ e, (messages.runSend messages.exampleWorld "C123" "Hello"
        { blocksJSON := "not valid json" } none).err = some e ∧
      ∃ sprintf, strings.Contains (e.text sprintf) "invalid blocks JSON" = true) := by
  have h1 : (messages.runSend messages.exampleWorld "C123" "Hello"
      { blocksJSON := "not valid json" } none).err =
      some (.other "no API token configured") := rfl
  have h2 : ∀ sprintf : String → List fmt.Arg → String, strings.Contains
      ((errors.Error.other "no API token configured").text sprintf)
      "invalid blocks JSON" = false := by
    intro sprintf
    simp only [errors.Error.text]
    decide
  refine ⟨h1, h2, rfl, ?_⟩
  rintro ⟨e, he, sprintf, hc⟩
  rw [h1] at he
  simp only [Option.some.injEq] at he
  subst he
  rw [h2] at hc
  cases hc

/-- C18, amended: when `blocksJSON` is non-empty and fails to decode with `e`,
`SendMessage` is never called; and once the channel is valid, the thread
timestamp empty or valid, the text non-empty after stdin substitution and
unescaping, and a client supplied or resolved, `runSend` returns
`fmt.Errorf("invalid blocks JSON: %w", e)`, whose text is
`invalid blocks JSON: ` followed by the text of `e`. -/
theorem runSend_invalid_blocks (w : messages.World) (channel text : String)
    (opts : messages.sendOptions) (c : Option client.Client) (e : errors.Error)
    (hne : opts.blocksJSON ≠ "")
    (hdec : w.jsonUnmarshal opts.blocksJSON = .error e) :
    messages.sendCalls (messages.runSend w channel text opts c).events = [] ∧
    (∀ ev1 t0 ev2 cl, validate.ChannelID channel = none →
      (opts.threadTS = "" ∨ validate.Timestamp opts.threadTS = none) →
      messages.readText w text opts = (ev1, .ok t0) →
      w.unescapeShellChars t0 ≠ "" →
      messages.resolveClient w c = (ev2, .ok cl) →
      (messages.runSend w channel text opts c).err =
        some (.wrapError "invalid blocks JSON: %w" e) ∧
      ∀ sprintf,
        (errors.Error.wrapError "invalid blocks JSON: %w" e).text sprintf =
          "invalid blocks JSON: " ++ e.text sprintf ∧
        strings.Contains ((errors.Error.wrapError "invalid blocks JSON: %w" e).text sprintf)
          "invalid blocks JSON" = true) := by
  refine ⟨?_, ?_⟩
  · cases hcalls : messages.sendCalls (messages.runSend w channel text opts c).events with
    | nil => rfl
    | cons call rest =>
      have hmem : call ∈ messages.sendCalls (messages.runSend w channel text opts c).events := by
        rw [hcalls]; exact List.mem_cons_self _ _
      obtain ⟨-, -, ev1, t0, ev2, cl, bl, -, -, -, hbl, -⟩ :=
        sendCalls_runSend_inv w channel text opts c call hmem
      rw [chooseBlocks_undecodable w opts _ e hne hdec] at hbl
      cases hbl
  · intro ev1 t0 ev2 cl hch hts hread htext hcl
    have hts2 : (if opts.threadTS ≠ "" then validate.Timestamp opts.threadTS else none) =
        none := by
      rcases hts with h | h
      · simp [h]
      · simp [h]
    refine ⟨?_, ?_⟩
    · simp only [messages.runSend, hch, hts2, hread, htext, hcl, if_false,
        chooseBlocks_undecodable w opts _ e hne hdec]
    · intro sprintf
      refine ⟨text_invalid_blocks sprintf e, ?_⟩
      rw [text_invalid_blocks]
      unfold strings.Contains
      have hd : ("invalid blocks JSON: " ++ e.text sprintf).data =
          "invalid blocks JSON".data ++ (": ".data ++ (e.text sprintf).data) := by
        rw [String.data_append]; rfl
      rw [hd]
      exact indexFrom_prefix _ _

/-- C18, amended, on the run of `TestRunSend_InvalidBlocks`. -/
theorem runSend_invalid_blocks_witness :
    messages.sendCalls
        (messages.runSend messages.exampleWorld "C123" "Hello"
          { blocksJSON := "not valid json" }
          (some ⟨"http://localhost", "test-token"⟩)).events = [] ∧
    (messages.runSend messages.exampleWorld "C123" "Hello"
        { blocksJSON := "not valid json" }
        (some ⟨"http://localhost", "test-token"⟩)).err =
      some (.wrapError "invalid blocks JSON: %w"
        (.other "invalid character 'o' in literal null (expecting 'u')")) :=
  ⟨(runSend_invalid_blocks messages.exampleWorld "C123" "Hello"
      { blocksJSON := "not valid json" } (some ⟨"http://localhost", "test-token"⟩)
      (.other "invalid character 'o' in literal null (expecting 'u')") (by decide) rfl).1,
   ((runSend_invalid_blocks messages.exampleWorld "C123" "Hello"
      { blocksJSON := "not valid json" } (some ⟨"http://localhost", "test-token"⟩)
      (.other "invalid character 'o' in literal null (expecting 'u')") (by decide) rfl).2
      [] "Hello" [] ⟨"http://localhost", "test-token"⟩ (by decide) (Or.inl rfl) rfl
      (by decide) rfl).1⟩

/-- C19: the text `runSend` builds from the scanned lines is their join with
`\n` only after the leading empty lines are dropped.  On the lines `""`,
`"hello"` (standard input `\nhello\n`) the code yields `hello` where the claim
says `\nhello`, and that is the text `SendMessage` receives. -/
theorem stdinText_drops_leading_empty_lines :
    (∀ tokens : List String,
      messages.stdinText tokens =
        strings.Join (tokens.dropWhile (fun t => decide (t = ""))) "\n") ∧
    messages.stdinText ["", "hello"] = "hello" ∧
    strings.Join ["", "hello"] "\n" = "\nhello" ∧
    messages.stdinText ["", "hello"] ≠ strings.Join ["", "hello"] "\n" ∧
    messages.sendCalls
        (messages.runSend messages.exampleWorld "C123" "-"
          { stdin := some ⟨["", "hello"], none⟩, simple := true }
          (some ⟨"http://localhost", "test-token"⟩)).events =
      [⟨⟨"http://localhost", "test-token"⟩, "C123", "hello", "", none⟩] := by
  refine ⟨?_, by decide, by decide, by decide, rfl⟩
  intro tokens
  apply String.ext
  unfold messages.stdinText
  induction tokens with
  | nil => rfl
  | cons t rest ih =>
    by_cases ht : t = ""
    · subst ht
      simp only [List.dropWhile_cons, decide_True, if_true]
      rw [← ih]
      rfl
    · have hd : t.data ≠ [] := by
        intro h
        exact ht (String.ext h)
      simp only [List.dropWhile_cons, ht, decide_False, Bool.false_eq_true, if_false]
      rw [Join_cons_data]
      show messages.scanLoop rest ([] ++ t.data) = _
      rw [List.nil_append, scanLoop_of_ne_nil rest t.data hd]

/-- C20: every `SendMessage` call of `runSend` carries `opts.threadTS`
unchanged, which is then empty or accepted by `validate.Timestamp`; once the
other steps succeed the call is made both for an accepted timestamp and for
the empty one, although `validate.Timestamp` itself rejects the empty
string. -/
theorem runSend_thread_unchanged (w : messages.World) (channel text : String)
    (opts : messages.sendOptions) (c : Option client.Client) :
    (∀ call ∈ messages.sendCalls (messages.runSend w channel text opts c).events,
      call.threadTS = opts.threadTS ∧
      (opts.threadTS = "" ∨ validate.Timestamp opts.threadTS = none)) ∧
    (∀ ev1 t0 ev2 cl bl, validate.ChannelID channel = none →
      (opts.threadTS = "" ∨ validate.Timestamp opts.threadTS = none) →
      messages.readText w text opts = (ev1, .ok t0) →
      w.unescapeShellChars t0 ≠ "" →
      messages.resolveClient w c = (ev2, .ok cl) →
      messages.chooseBlocks w opts (w.unescapeShellChars t0) = .ok bl →
      messages.sendCalls (messages.runSend w channel text opts c).events =
        [⟨cl, channel, w.unescapeShellChars t0, opts.threadTS, bl⟩]) ∧
    (validate.Timestamp "").isSome = true := by
  refine ⟨?_, ?_, by decide⟩
  · intro call hcall
    obtain ⟨-, hts, ev1, t0, ev2, cl, bl, -, -, -, -, rfl⟩ :=
      sendCalls_runSend_inv w channel text opts c call hcall
    exact ⟨rfl, hts⟩
  · intro ev1 t0 ev2 cl bl hch hts hread htext hcl hbl
    exact sendCalls_runSend_reaches w channel text opts c ev1 ev2 t0 cl bl hch hts hread
      htext hcl hbl

/-- C20 on the run of `TestRunSend_WithThread` and on the same run without a
thread. -/
theorem runSend_thread_unchanged_witness :
    messages.sendCalls
        (messages.runSend messages.exampleWorld "C123" "Reply"
          { threadTS := "1234567890.000000", simple := true }
          (some ⟨"http://localhost", "test-token"⟩)).events =
      [⟨⟨"http://localhost", "test-token"⟩, "C123", "Reply", "1234567890.000000", none⟩] ∧
    messages.sendCalls
        (messages.runSend messages.exampleWorld "C123" "Reply" { simple := true }
          (some ⟨"http://localhost", "test-token"⟩)).events =
      [⟨⟨"http://localhost", "test-token"⟩, "C123", "Reply", "", none⟩] :=
  ⟨(runSend_thread_unchanged messages.exampleWorld "C123" "Reply"
      { threadTS := "1234567890.000000", simple := true }
      (some ⟨"http://localhost", "test-token"⟩)).2.1
      [] "Reply" [] ⟨"http://localhost", "test-token"⟩ none (by decide)
      (Or.inr (by decide)) rfl (by decide) rfl rfl,
   (runSend_thread_unchanged messages.exampleWorld "C123" "Reply" { simple := true }
      (some ⟨"http://localhost", "test-token"⟩)).2.1
      [] "Reply" [] ⟨"http://localhost", "test-token"⟩ none (by decide)
      (Or.inl rfl) rfl (by decide) rfl rfl⟩

/-- C29: `Emoji` is idempotent, and its result neither begins nor ends with a
colon. -/
theorem Emoji_idempotent_normalized (e : String) :
    validate.Emoji (validate.Emoji e) = validate.Emoji e ∧
    strings.HasPrefix (validate.Emoji e) ":" = false ∧
    strings.HasSuffix (validate.Emoji e) ":" = false := by
  have h := Trim_colon_clean e
  exact ⟨Trim_colon_of_clean _ h.1 h.2,
    HasPrefix_single_eq_false _ ':' h.1, HasSuffix_single_eq_false _ ':' h.2⟩

/-- C21: when the `SendMessage` call of `runSend` fails with `e`, `runSend`
returns exactly `client.WrapError("send message", e)`, which is not nil, the
call is its last effect, and nothing is printed. -/
theorem runSend_send_failure (w : messages.World) (channel text : String)
    (opts : messages.sendOptions) (c : Option client.Client) (e : errors.Error)
    (call : messages.SendCall)
    (hcall : call ∈ messages.sendCalls (messages.runSend w channel text opts c).events)
    (hfail : w.SendMessage call.client call.channel call.text call.threadTS call.blocks =
      .error e) :
    (messages.runSend w channel text opts c).err = some (w.WrapError "send message" e) ∧
    (messages.runSend w channel text opts c).err ≠ none ∧
    (∀ ev ∈ (messages.runSend w channel text opts c).events, ev.isOutput = false) ∧
    (messages.runSend w channel text opts c).events.getLast? = some (.sendMessage call) := by
  obtain ⟨hch, hts, ev1, t0, ev2, cl, bl, hread, hne, hcl, hbl, rfl⟩ :=
    sendCalls_runSend_inv w channel text opts c call hcall
  have hrun := runSend_reaches w channel text opts c ev1 ev2 t0 cl bl hch hts hread hne hcl hbl
  have hdel : messages.deliver w cl channel (w.unescapeShellChars t0) opts bl =
      ⟨[.sendMessage ⟨cl, channel, w.unescapeShellChars t0, opts.threadTS, bl⟩],
        some (w.WrapError "send message" e)⟩ := by
    simp only [messages.deliver]
    simp only [] at hfail
    rw [hfail]
  rw [hrun, hdel]
  refine ⟨rfl, by simp, ?_, by simp⟩
  intro ev hev
  simp only [List.mem_append, List.mem_singleton] at hev
  rcases hev with (h1 | h2) | h3
  · have := isOutput_readText w text opts
    rw [hread] at this
    exact (this ev h1).1
  · have := isOutput_resolveClient w c
    rw [hcl] at this
    exact this ev h2
  · subst h3; rfl

/-- C21 on a run whose server answers `channel_not_found`. -/
theorem runSend_send_failure_witness :
    (messages.runSend
        { messages.exampleWorld with
          SendMessage := fun _ _ _ _ _ => .error (.other "channel_not_found") }
        "C123" "Hello" { simple := true } (some ⟨"http://localhost", "test-token"⟩)).err =
      some (.wrapError "send message: %w" (.other "channel_not_found")) :=
  (runSend_send_failure
    { messages.exampleWorld with
      SendMessage := fun _ _ _ _ _ => .error (.other "channel_not_found") }
    "C123" "Hello" { simple := true } (some ⟨"http://localhost", "test-token"⟩)
    (.other "channel_not_found")
    ⟨⟨"http://localhost", "test-token"⟩, "C123", "Hello", "", none⟩
    (List.mem_singleton.mpr rfl) rfl).1

/-- C26: a channel that fails `validate.ChannelID`, or a non-empty thread
timestamp that fails `validate.Timestamp`, makes `runSend` return that
validator's error with no effect at all: no read of stdin, no client
resolution, no `SendMessage` call. -/
theorem runSend_validation_abort (w : messages.World) (channel text : String)
    (opts : messages.sendOptions) (c : Option client.Client) (e : fmt.GoError)
    (hfail : validate.ChannelID channel = some e ∨
      (validate.ChannelID channel = none ∧ opts.threadTS ≠ "" ∧
        validate.Timestamp opts.threadTS = some e)) :
    (messages.runSend w channel text opts c).err = some (.plain e) ∧
    (messages.runSend w channel text opts c).events = [] ∧
    messages.sendCalls (messages.runSend w channel text opts c).events = [] ∧
    (∀ ev ∈ (messages.runSend w channel text opts c).events, ev.isClientNew = false) := by
  have hrun : messages.runSend w channel text opts c = ⟨[], some (.plain e)⟩ := by
    rcases hfail with h | ⟨h1, h2, h3⟩
    · simp only [messages.runSend, h]
    · simp only [messages.runSend, h1, h2, h3, ne_eq, not_false_eq_true, if_true]
  rw [hrun]
  exact ⟨rfl, rfl, rfl, by simp⟩

/-- C26 on the channel `X01234ABCDE` and on the thread timestamp `bad`, with
the text `-` so that a run that got further would read stdin. -/
theorem runSend_validation_abort_witness :
    ((messages.runSend messages.exampleWorld "X01234ABCDE" "-" {} none).err =
        some (.plain (fmt.Errorf
          "invalid channel ID %q: must start with C or G (e.g., C01234ABCDE)"
          [.str "X01234ABCDE"])) ∧
      (messages.runSend messages.exampleWorld "X01234ABCDE" "-" {} none).events = []) ∧
    ((messages.runSend messages.exampleWorld "C123" "-" { threadTS := "bad" } none).err =
        some (.plain (fmt.Errorf "invalid timestamp %q: must be format 1234567890.123456"
          [.str "bad"])) ∧
      (messages.runSend messages.exampleWorld "C123" "-" { threadTS := "bad" } none).events =
        []) :=
  ⟨⟨(runSend_validation_abort messages.exampleWorld "X01234ABCDE" "-" {} none _
        (Or.inl rfl)).1,
    (runSend_validation_abort messages.exampleWorld "X01234ABCDE" "-" {} none
        (fmt.Errorf "invalid channel ID %q: must start with C or G (e.g., C01234ABCDE)"
          [.str "X01234ABCDE"]) (Or.inl rfl)).2.1⟩,
   ⟨(runSend_validation_abort messages.exampleWorld "C123" "-" { threadTS := "bad" } none _
        (Or.inr ⟨by decide, by decide, rfl⟩)).1,
    (runSend_validation_abort messages.exampleWorld "C123" "-" { threadTS := "bad" } none
        (fmt.Errorf "invalid timestamp %q: must be format 1234567890.123456" [.str "bad"])
        (Or.inr ⟨by decide, by decide, rfl⟩)).2.1⟩⟩

/-- C27, as stated, fails: with the empty text and the channel `X01234ABCDE`
the text is empty after stdin substitution and unescaping, yet `runSend`
returns the error of `validate.ChannelID`, not `message text cannot be
empty`; so it does for the valid channel `C123` with the thread timestamp
`bad`, where the error of `validate.Timestamp` is returned. -/
theorem runSend_empty_text_other_error :
    messages.readText messages.exampleWorld "" {} = ([], .ok "") ∧
    messages.exampleWorld.unescapeShellChars "" = "" ∧
    (messages.runSend messages.exampleWorld "X01234ABCDE" "" {}
        (some ⟨"http://localhost", "test-token"⟩)).err =
      some (.plain (fmt.Errorf
        "invalid channel ID %q: must start with C or G (e.g., C01234ABCDE)"
        [.str "X01234ABCDE"])) ∧
    (messages.runSend messages.exampleWorld "X01234ABCDE" "" {}
        (some ⟨"http://localhost", "test-token"⟩)).err ≠
      some (.plain (fmt.Errorf "message text cannot be empty" [])) ∧
    (messages.runSend messages.exampleWorld "C123" "" { threadTS := "bad" }
        (some ⟨"http://localhost", "test-token"⟩)).err =
      some (.plain (fmt.Errorf "invalid timestamp %q: must be format 1234567890.123456"
        [.str "bad"])) ∧
    (messages.runSend messages.exampleWorld "C123" "" { threadTS := "bad" }
        (some ⟨"http://localhost", "test-token"⟩)).err ≠
      some (.plain (fmt.Errorf "message text cannot be empty" [])) := by
  have h1 : (messages.runSend messages.exampleWorld "X01234ABCDE" "" {}
      (some ⟨"http://localhost", "test-token"⟩)).err =
      some (.plain (fmt.Errorf
        "invalid channel ID %q: must start with C or G (e.g., C01234ABCDE)"
        [.str "X01234ABCDE"])) := rfl
  have h2 : (messages.runSend messages.exampleWorld "C123" "" { threadTS := "bad" }
      (some ⟨"http://localhost", "test-token"⟩)).err =
      some (.plain (fmt.Errorf "invalid timestamp %q: must be format 1234567890.123456"
        [.str "bad"])) := rfl
  refine ⟨rfl, rfl, h1, ?_, h2, ?_⟩
  · rw [h1]
    intro h
    injection h with h
    injection h with h
    exact absurd h (by decide)
  · rw [h2]
    intro h
    injection h with h
    injection h with h
    exact absurd h (by decide)

/-- C27, amended: every `SendMessage` call of `runSend` carries a non-empty
text; and whenever the text is empty after stdin substitution and
shell-unescaping, `SendMessage` is not called, and if the channel is valid and
the thread timestamp is empty or valid the run returns the error
`message text cannot be empty`, having done nothing but the stdin read. -/
theorem runSend_never_sends_empty (w : messages.World) (channel text : String)
    (opts : messages.sendOptions) (c : Option client.Client) :
    (∀ call ∈ messages.sendCalls (messages.runSend w channel text opts c).events,
      call.text ≠ "") ∧
    (∀ ev1 t0, messages.readText w text opts = (ev1, .ok t0) →
      w.unescapeShellChars t0 = "" →
      messages.sendCalls (messages.runSend w channel text opts c).events = [] ∧
      (validate.ChannelID channel = none →
        (opts.threadTS = "" ∨ validate.Timestamp opts.threadTS = none) →
        (messages.runSend w channel text opts c).err =
            some (.plain (fmt.Errorf "message text cannot be empty" [])) ∧
          (messages.runSend w channel text opts c).events = ev1)) := by
  refine ⟨?_, ?_⟩
  · intro call hcall
    obtain ⟨-, -, ev1, t0, ev2, cl, bl, -, hne, -, -, rfl⟩ :=
      sendCalls_runSend_inv w channel text opts c call hcall
    exact hne
  · intro ev1 t0 hread hempty
    refine ⟨?_, ?_⟩
    · cases hcalls : messages.sendCalls (messages.runSend w channel text opts c).events with
      | nil => rfl
      | cons call rest =>
        have hmem : call ∈
            messages.sendCalls (messages.runSend w channel text opts c).events := by
          rw [hcalls]; exact List.mem_cons_self _ _
        obtain ⟨-, -, ev1', t0', ev2, cl, bl, hread', hne, -, -, -⟩ :=
          sendCalls_runSend_inv w channel text opts c call hmem
        rw [hread] at hread'
        simp only [Prod.mk.injEq, Except.ok.injEq] at hread'
        obtain ⟨-, rfl⟩ := hread'
        exact (hne hempty).elim
    · intro hch hts
      have hts2 : (if opts.threadTS ≠ "" then validate.Timestamp opts.threadTS else none) =
          none := by
        rcases hts with h | h
        · simp [h]
        · simp [h]
      simp only [messages.runSend, hch, hts2, hread, hempty, if_true, and_self]

/-- C27, amended, on the empty text argument, and on a text piped through
stdin. -/
theorem runSend_never_sends_empty_witness :
    (messages.sendCalls
        (messages.runSend messages.exampleWorld "C123" "" {}
          (some ⟨"http://localhost", "test-token"⟩)).events = [] ∧
      (messages.runSend messages.exampleWorld "C123" "" {}
          (some ⟨"http://localhost", "test-token"⟩)).err =
        some (.plain (fmt.Errorf "message text cannot be empty" []))) ∧
    (∀ call ∈ messages.sendCalls
        (messages.runSend messages.exampleWorld "C123" "-"
          { stdin := some ⟨["Hello"], none⟩ }
          (some ⟨"http://localhost", "test-token"⟩)).events,
      call.text ≠ "") :=
  ⟨⟨((runSend_never_sends_empty messages.exampleWorld "C123" "" {}
        (some ⟨"http://localhost", "test-token"⟩)).2 [] "" rfl rfl).1,
    (((runSend_never_sends_empty messages.exampleWorld "C123" "" {}
        (some ⟨"http://localhost", "test-token"⟩)).2 [] "" rfl rfl).2
        (by decide) (Or.inl rfl)).1⟩,
   (runSend_never_sends_empty messages.exampleWorld "C123" "-"
      { stdin := some ⟨["Hello"], none⟩ } (some ⟨"http://localhost", "test-token"⟩)).1⟩

/-- C23: with no client supplied and `client.New()` failing with `e`, `runTest`
prints its first line, returns `e` and never calls `AuthTest`; `runSend` never
calls `SendMessage`, and whenever it gets to call `client.New()` that call is
its last effect and `e` is what it returns. -/
theorem no_client_no_call (wc : config.World) (wm : messages.World)
    (topts : config.testOptions) (channel text : String) (opts : messages.sendOptions)
    (e : errors.Error) (hc : wc.clientNew = .error e) (hm : wm.clientNew = .error e) :
    config.runTest wc topts none =
      ⟨[.println "Testing Slack authentication...", .clientNew], some e⟩ ∧
    config.authCalls (config.runTest wc topts none).events = [] ∧
    messages.sendCalls (messages.runSend wm channel text opts none).events = [] ∧
    ((∃ ev ∈ (messages.runSend wm channel text opts none).events, ev.isClientNew = true) →
      (messages.runSend wm channel text opts none).err = some e ∧
      (messages.runSend wm channel text opts none).events.getLast? = some .clientNew) := by
  have ht : config.runTest wc topts none =
      ⟨[.println "Testing Slack authentication...", .clientNew], some e⟩ := by
    simp [config.runTest, hc]
  refine ⟨ht, ?_, sendCalls_runSend_client_unavailable wm channel text opts e hm, ?_⟩
  · rw [ht]; rfl
  · intro h
    obtain ⟨-, hch, hts, ev1, t0, hread, hne⟩ :=
      clientNew_runSend_inv wm channel text opts none h
    rw [runSend_client_unavailable wm channel text opts e ev1 t0 hm hch hts hread hne]
    exact ⟨rfl, by simp⟩

/-- C23 on the run of `TestRunTest_NoTokenConfigured` and on a `runSend` run
without client or credential. -/
theorem no_client_no_call_witness :
    config.runTest config.exampleWorld {} none =
      ⟨[.println "Testing Slack authentication...", .clientNew],
        some (.other "no API token configured")⟩ ∧
    messages.sendCalls (messages.runSend messages.exampleWorld "C123" "Hello" {} none).events =
      [] ∧
    (messages.runSend messages.exampleWorld "C123" "Hello" {} none).err =
      some (.other "no API token configured") :=
  ⟨(no_client_no_call config.exampleWorld messages.exampleWorld {} "C123" "Hello" {}
      (.other "no API token configured") rfl rfl).1,
   (no_client_no_call config.exampleWorld messages.exampleWorld {} "C123" "Hello" {}
      (.other "no API token configured") rfl rfl).2.2.1,
   ((no_client_no_call config.exampleWorld messages.exampleWorld {} "C123" "Hello" {}
      (.other "no API token configured") rfl rfl).2.2.2
      ⟨.clientNew, List.mem_singleton.mpr rfl, rfl⟩).1⟩

/-- C24: when the `AuthTest` call of `runTest` fails with `e`, `runTest` returns
`e` itself, so whatever code `X` the text of `e` contains, the text of the
returned error contains it; `Authentication failed` is the last thing
printed. -/
theorem runTest_auth_failure (w : config.World) (topts : config.testOptions)
    (c : Option client.Client) (cl : client.Client) (e : errors.Error)
    (hcl : c = some cl ∨ (c = none ∧ w.clientNew = .ok cl))
    (hfail : w.AuthTest cl = .error e) :
    (config.runTest w topts c).err = some e ∧
    config.authCalls (config.runTest w topts c).events = [cl] ∧
    (config.runTest w topts c).events.getLast? = some (.println "Authentication failed") ∧
    (∀ (sprintf : String → List fmt.Arg → String) (X : String),
      strings.Contains (e.text sprintf) X = true →
      ∃ r, (config.runTest w topts c).err = some r ∧
        strings.Contains (r.text sprintf) X = true) := by
  have herr : (config.runTest w topts c).err = some e := by
    rcases hcl with h | ⟨h1, h2⟩
    · simp [config.runTest, h, hfail]
    · simp [config.runTest, h1, h2, hfail]
  refine ⟨herr, ?_, ?_, fun sprintf X hX => ⟨e, herr, hX⟩⟩
  · rcases hcl with h | ⟨h1, h2⟩
    · simp [config.runTest, h, hfail, config.authCalls]
    · simp [config.runTest, h1, h2, hfail, config.authCalls]
  · rcases hcl with h | ⟨h1, h2⟩
    · simp [config.runTest, h, hfail]
    · simp [config.runTest, h1, h2, hfail]

/-- C24 on the `invalid_auth` case of `TestRunTest_AuthErrors`. -/
theorem runTest_auth_failure_witness :
    (config.runTest config.exampleWorld {} (some ⟨"http://localhost", "bad-token"⟩)).err =
      some (.other "slack API error: invalid_auth") ∧
    ∃ r, (config.runTest config.exampleWorld {}
        (some ⟨"http://localhost", "bad-token"⟩)).err = some r ∧
      strings.Contains (r.text (fun format _ => format)) "invalid_auth" = true :=
  ⟨(runTest_auth_failure config.exampleWorld {} (some ⟨"http://localhost", "bad-token"⟩)
      ⟨"http://localhost", "bad-token"⟩ (.other "slack API error: invalid_auth")
      (Or.inl rfl) rfl).1,
   (runTest_auth_failure config.exampleWorld {} (some ⟨"http://localhost", "bad-token"⟩)
      ⟨"http://localhost", "bad-token"⟩ (.other "slack API error: invalid_auth")
      (Or.inl rfl) rfl).2.2.2 (fun format _ => format) "invalid_auth" (by decide)⟩

/-- C25: for pages `1..N` of which all but the last carry a non-empty cursor
and the last an empty one, a list operation returns the concatenation of the
pages' items in request order and issues exactly `N` requests: the first
without a cursor, request `K+1` with the cursor of page `K`; whatever the
server would have answered after page `N` is never asked for. -/
theorem listAll_concatenates_pages {α : Type} (init : List (client.Page α))
    (last : client.Page α) (extra : List (Except errors.Error (client.Page α)))
    (hinit : ∀ p ∈ init, p.nextCursor ≠ "") (hlast : last.nextCursor = "") :
    (client.listAll ((init ++ [last]).map Except.ok ++ extra)).result =
      some (.ok ((init ++ [last]).map (fun p => p.items)).flatten) ∧
    (client.listAll ((init ++ [last]).map Except.ok ++ extra)).requests =
      none :: init.map (fun p => some p.nextCursor) ∧
    (client.listAll ((init ++ [last]).map Except.ok ++ extra)).requests.length =
      (init ++ [last]).length := by
  unfold client.listAll
  rw [paginate_pages init last extra hinit hlast]
  simp

/-- C25 on the two pages of `TestClient_ListChannels_Pagination`. -/
theorem listAll_concatenates_pages_witness :
    (client.listAll [.ok ⟨["general"], "cursor123"⟩, .ok ⟨["random"], ""⟩]).result =
      some (.ok ["general", "random"]) ∧
    (client.listAll [.ok ⟨["general"], "cursor123"⟩, .ok ⟨["random"], ""⟩]).requests =
      [none, some "cursor123"] :=
  ⟨(listAll_concatenates_pages [⟨["general"], "cursor123"⟩] ⟨["random"], ""⟩ []
      (by decide) rfl).1,
   (listAll_concatenates_pages [⟨["general"], "cursor123"⟩] ⟨["random"], ""⟩ []
      (by decide) rfl).2.1⟩

/-- C22: without `--force` and with standard input at its end, so that no
answer is read, `runDeleteToken` still calls `keychain.DeleteAPIToken`; so it
does when reading fails.  The sibling paths behave as the claim says: an empty
answer line and the answer `n` cancel, the answers `y` and ` YES ` delete. -/
theorem runDeleteToken_deletes_without_answer :
    (config.runDeleteToken config.exampleWorld {}).events =
      [.println "About to delete the stored Slack API token.",
       .printf "Are you sure? [y/N]: ", .scan, .deleteAPIToken,
       .println "API token deleted from config file"] ∧
    config.deleteCalls (config.runDeleteToken config.exampleWorld {}).events = 1 ∧
    config.deleteCalls (config.runDeleteToken config.exampleWorld
      { stdin := some ⟨[], some (.other "read error")⟩ }).events = 1 ∧
    config.deleteCalls (config.runDeleteToken config.exampleWorld
      { stdin := some ⟨[""], none⟩ }).events = 0 ∧
    config.deleteCalls (config.runDeleteToken config.exampleWorld
      { stdin := some ⟨["n"], none⟩ }).events = 0 ∧
    config.deleteCalls (config.runDeleteToken config.exampleWorld
      { stdin := some ⟨["y"], none⟩ }).events = 1 ∧
    config.deleteCalls (config.runDeleteToken config.exampleWorld
      { stdin := some ⟨[" YES "], none⟩ }).events = 1 := by
  refine ⟨by decide, by decide, by decide, by decide, by decide, by decide, by decide⟩

/-- C28: with `--force` set, `runDeleteToken` prints no prompt and reads
nothing, whatever stdin holds; it calls `keychain.DeleteAPIToken` exactly once
as its first effect, returns nil exactly when that call succeeds, and when the
call fails with `e` returns `fmt.Errorf("failed to delete token: %w", e)`,
whose text is `failed to delete token: ` followed by the text of `e`. -/
theorem runDeleteToken_force (w : config.World) (opts : config.deleteTokenOptions)
    (hf : opts.force = true) :
    config.scanCalls (config.runDeleteToken w opts).events = 0 ∧
    config.deleteCalls (config.runDeleteToken w opts).events = 1 ∧
    (config.runDeleteToken w opts).events.head? = some .deleteAPIToken ∧
    ((config.runDeleteToken w opts).err = none ↔ w.DeleteAPIToken = none) ∧
    (∀ e, w.DeleteAPIToken = some e →
      (config.runDeleteToken w opts).err =
          some (.wrapError "failed to delete token: %w" e) ∧
        ∀ sprintf, (errors.Error.wrapError "failed to delete token: %w" e).text sprintf =
          "failed to delete token: " ++ e.text sprintf) ∧
    (∀ (stdin : Option messages.Reader) (osStdin : messages.Reader),
      config.runDeleteToken { w with osStdin := osStdin } { opts with stdin := stdin } =
        config.runDeleteToken w opts) := by
  have hc : ∀ (w' : config.World) (stdin : Option messages.Reader),
      config.confirmDelete w' { opts with stdin := stdin } = ([], false) := by
    intro w' stdin
    simp [config.confirmDelete, hf]
  have hc0 : config.confirmDelete w opts = ([], false) := by
    simp [config.confirmDelete, hf]
  have htext : ∀ (e : errors.Error) (sprintf : String → List fmt.Arg → String),
      (errors.Error.wrapError "failed to delete token: %w" e).text sprintf =
        "failed to delete token: " ++ e.text sprintf := by
    intro e sprintf
    apply String.ext
    simp only [errors.Error.text, String.data_append]
    generalize (errors.Error.text sprintf e).data = m
    have h : errors.substW "failed to delete token: %w".data m =
        "failed to delete token: ".data ++ (m ++ []) := rfl
    rw [h, List.append_nil]
  refine ⟨?_, ?_, ?_, ?_, ?_, ?_⟩
  · simp only [config.runDeleteToken, hc0]
    cases w.DeleteAPIToken <;> cases w.IsSecureStorage <;> rfl
  · simp only [config.runDeleteToken, hc0]
    cases w.DeleteAPIToken <;> cases w.IsSecureStorage <;> rfl
  · simp only [config.runDeleteToken, hc0]
    cases w.DeleteAPIToken <;> cases w.IsSecureStorage <;> rfl
  · simp only [config.runDeleteToken, hc0]
    cases w.DeleteAPIToken <;> cases w.IsSecureStorage <;> simp
  · intro e he
    refine ⟨?_, htext e⟩
    simp only [config.runDeleteToken, hc0, he]
  · intro stdin osStdin
    simp only [config.runDeleteToken, hc0, hc]

/-- C28 on a forced run whose stdin holds the answer `n`, once with a deletion
that succeeds and once with one that fails. -/
theorem runDeleteToken_force_witness :
    config.deleteCalls (config.runDeleteToken config.exampleWorld
      { force := true, stdin := some ⟨["n"], none⟩ }).events = 1 ∧
    (config.runDeleteToken { config.exampleWorld with
        DeleteAPIToken := some (.other "keychain item not found") }
      { force := true }).err =
      some (.wrapError "failed to delete token: %w" (.other "keychain item not found")) :=
  ⟨(runDeleteToken_force config.exampleWorld
      { force := true, stdin := some ⟨["n"], none⟩ } rfl).2.1,
   ((runDeleteToken_force { config.exampleWorld with
        DeleteAPIToken := some (.other "keychain item not found") }
      { force := true } rfl).2.2.2.2.1 (.other "keychain item not found") rfl).1⟩

/-- C30: without `--force` and with no line to read, `runDeleteToken` does not
cancel: it calls `keychain.DeleteAPIToken` once and then behaves exactly as
after the answer `y`, reporting the deletion when the call succeeds. -/
theorem runDeleteToken_no_line (w : config.World) (opts : config.deleteTokenOptions)
    (hf : opts.force = false) (hno : (opts.stdin.getD w.osStdin).tokens = []) :
    config.deleteCalls (config.runDeleteToken w opts).events = 1 ∧
    config.Event.println "Cancelled." ∉ (config.runDeleteToken w opts).events ∧
    config.runDeleteToken w opts =
      config.runDeleteToken w { force := false, stdin := some ⟨["y"], none⟩ } ∧
    (w.DeleteAPIToken = none →
      (config.runDeleteToken w opts).err = none ∧
      (config.runDeleteToken w opts).events.getLast? =
        some (.println (if w.IsSecureStorage then "API token deleted from Keychain"
          else "API token deleted from config file"))) := by
  have hno2 : (match opts.stdin with
      | some r => r
      | none => w.osStdin).tokens = [] := by
    cases hs : opts.stdin <;> simpa [hs] using hno
  have hc : config.confirmDelete w opts =
      ([.println "About to delete the stored Slack API token.",
        .printf "Are you sure? [y/N]: ", .scan], false) := by
    simp [config.confirmDelete, hf, hno2]
  have hy : config.confirmDelete w { force := false, stdin := some ⟨["y"], none⟩ } =
      ([.println "About to delete the stored Slack API token.",
        .printf "Are you sure? [y/N]: ", .scan], false) := by
    have h1 : strings.TrimSpace (strings.ToLower "y") = "y" := by decide
    simp [config.confirmDelete, h1]
  refine ⟨?_, ?_, ?_, ?_⟩
  · simp only [config.runDeleteToken, hc]
    cases w.DeleteAPIToken <;> cases w.IsSecureStorage <;> rfl
  · simp only [config.runDeleteToken, hc]
    cases w.DeleteAPIToken <;> cases w.IsSecureStorage <;> simp
  · simp only [config.runDeleteToken, hc, hy]
  · intro hd
    simp only [config.runDeleteToken, hc, hd]
    cases w.IsSecureStorage <;> simp

/-- C30 on a run with standard input at its end. -/
theorem runDeleteToken_no_line_witness :
    config.deleteCalls (config.runDeleteToken config.exampleWorld {}).events = 1 ∧
    (config.runDeleteToken config.exampleWorld {}).events.getLast? =
      some (.println "API token deleted from config file") :=
  ⟨(runDeleteToken_no_line config.exampleWorld {} rfl rfl).1,
   ((runDeleteToken_no_line config.exampleWorld {} rfl rfl).2.2.2 rfl).2⟩

end SlackCLI
